import Mathlib

/-!
Verification of the canvas-sync repository's core logic against its
specification.

The TypeScript source is shallowly embedded.  JavaScript `Date` values are
modelled as integer day numbers (days since the Unix epoch, i.e. the
ECMAScript `Day(t)` of a time value truncated to local midnight), and the
civil-date conversions performed by `new Date(y, m, d)` and by
`getFullYear` / `getMonth` / `getDate` are modelled by proleptic-Gregorian
day-count algorithms, which is exactly what ECMAScript `MakeDay` and the
date-component accessors compute.  `daysFromCivil` uses the classical
civil-to-days formula; `civilFromDays` uses the Euclidean-affine inverse,
and the two are proved mutually consistent below, so together they form a
faithful model of the `Date` component interface.
-/

namespace CanvasSync

/-- Day number (days since 1970-01-01) of the civil date `y-m-d`, month
`m` 1-based in `[1,12]`.  Models ECMAScript `MakeDay(y, m-1, d)` for a
month index already in range. -/
def daysFromCivil (y m d : Int) : Int :=
  let y1 := if m ≤ 2 then y - 1 else y
  let era := y1 / 400
  let yoe := y1 - era * 400
  let mAdj := if 2 < m then m - 3 else m + 9
  let doy := (153 * mAdj + 2) / 5 + d - 1
  let doe := yoe * 365 + yoe / 4 - yoe / 100 + doy
  era * 146097 + doe - 719468

/-- Civil date `(year, month, day)` (month 1-based) of a day number:
the inverse conversion, modelling `getFullYear` / `getMonth` /
`getDate` of a `Date` holding day number `z`. -/
def civilFromDays (z : Int) : Int × Int × Int :=
  let z1 := z + 719468
  let era := z1 / 146097
  let doe := z1 - era * 146097
  let n1 := 4 * doe + 3
  let c := n1 / 146097
  let r := n1 % 146097 / 4
  let n2 := 4 * r + 3
  let y2 := n2 / 1461
  let doy := n2 % 1461 / 4
  let yoe := 100 * c + y2
  let y := yoe + era * 400
  let mp := (5 * doy + 2) / 153
  let d := doy - (153 * mp + 2) / 5 + 1
  let m := if mp < 10 then mp + 3 else mp - 9
  (if m ≤ 2 then y + 1 else y, m, d)

/-- Arithmetic core of the civil/day conversions: the century and
year-of-century extraction recovers the day-of-era exactly, with all
intermediate quantities in range. -/
theorem ns_decomp (doe : Int) (h0 : 0 ≤ doe) (h1 : doe ≤ 146096) :
    doe = 36524*((4*doe+3)/146097) + 365*((4*((4*doe+3)%146097/4)+3)/1461)
        + ((4*((4*doe+3)%146097/4)+3)/1461)/4 + (4*((4*doe+3)%146097/4)+3)%1461/4
    ∧ 0 ≤ (4*doe+3)/146097 ∧ (4*doe+3)/146097 ≤ 3
    ∧ 0 ≤ (4*((4*doe+3)%146097/4)+3)/1461 ∧ (4*((4*doe+3)%146097/4)+3)/1461 ≤ 99
    ∧ 0 ≤ (4*((4*doe+3)%146097/4)+3)%1461/4 ∧ (4*((4*doe+3)%146097/4)+3)%1461/4 ≤ 365 := by
  omega

/-- Rebuilding a day number from era, century, year-of-century and
day-of-year through `daysFromCivil` recovers the expected value. -/
theorem daysFromCivil_rebuild (era c y2 doy : Int)
    (hc0 : 0 ≤ c) (hc3 : c ≤ 3) (hy0 : 0 ≤ y2) (hy9 : y2 ≤ 99)
    (h3 : 0 ≤ doy) (h4 : doy ≤ 365) :
    daysFromCivil
      (if (if (5 * doy + 2) / 153 < 10 then (5 * doy + 2) / 153 + 3
           else (5 * doy + 2) / 153 - 9) ≤ 2
       then 100 * c + y2 + era * 400 + 1 else 100 * c + y2 + era * 400)
      (if (5 * doy + 2) / 153 < 10 then (5 * doy + 2) / 153 + 3
       else (5 * doy + 2) / 153 - 9)
      (doy - (153 * ((5 * doy + 2) / 153) + 2) / 5 + 1)
      = era * 146097 + (36524 * c + 365 * y2 + y2 / 4 + doy) - 719468 := by
  simp only [daysFromCivil]
  split_ifs <;> omega

/-- `daysFromCivil` is a left inverse of `civilFromDays`: reading the
components of a day number and rebuilding a date from them yields the
same day number. -/
theorem daysFromCivil_civilFromDays (z : Int) :
    daysFromCivil (civilFromDays z).1 (civilFromDays z).2.1 (civilFromDays z).2.2 = z := by
  have key := ns_decomp (z + 719468 - (z + 719468) / 146097 * 146097) (by omega) (by omega)
  have reb := daysFromCivil_rebuild ((z + 719468) / 146097)
    ((4 * (z + 719468 - (z + 719468) / 146097 * 146097) + 3) / 146097)
    ((4 * ((4 * (z + 719468 - (z + 719468) / 146097 * 146097) + 3) % 146097 / 4) + 3) / 1461)
    ((4 * ((4 * (z + 719468 - (z + 719468) / 146097 * 146097) + 3) % 146097 / 4) + 3) % 1461 / 4)
    (by omega) (by omega) (by omega) (by omega) (by omega) (by omega)
  simp only [civilFromDays]
  omega

/-- The month component of any day number is in `[1,12]`. -/
theorem civilFromDays_m_bounds (z : Int) :
    1 ≤ (civilFromDays z).2.1 ∧ (civilFromDays z).2.1 ≤ 12 := by
  have key := ns_decomp (z + 719468 - (z + 719468) / 146097 * 146097) (by omega) (by omega)
  simp only [civilFromDays]
  split_ifs <;> omega

/-- The day component of any day number is in `[1,31]`. -/
theorem civilFromDays_d_bounds (z : Int) :
    1 ≤ (civilFromDays z).2.2 ∧ (civilFromDays z).2.2 ≤ 31 := by
  have key := ns_decomp (z + 719468 - (z + 719468) / 146097 * 146097) (by omega) (by omega)
  simp only [civilFromDays]
  omega

/-! ## Urgency classifier (`getUrgency`, src/src/utils.ts) -/

/-- The `Urgency` union type of src/src/utils.ts. -/
inductive Urgency where
  | overdue
  | today
  | tomorrow
  | week
  | later
  | none
deriving DecidableEq, Repr

/-- `getUrgency` from src/src/utils.ts.  `due` is the optional due date
and `today` the current date, both as local-midnight day numbers; the
source computes `diffDays = Math.round((dueDateOnly - today) / 86400000)`
on two local midnights, which is exactly their day-number difference (the
rounding exists only to absorb a DST hour).  A missing due date (`null`
or empty, both falsy) is the `Option.none` case. -/
def getUrgency (due : Option Int) (today : Int) : Urgency :=
  match due with
  | Option.none => Urgency.none
  | some d =>
    let diffDays := d - today
    if diffDays < 0 then Urgency.overdue
    else if diffDays = 0 then Urgency.today
    else if diffDays = 1 then Urgency.tomorrow
    else if diffDays ≤ 7 then Urgency.week
    else Urgency.later

/-- C1: the urgency classifier is total; it returns `none` exactly when
the due date is absent, and otherwise, with `d` the whole-day difference
`dueDate − today`, it returns `overdue` iff `d < 0`, `today` iff `d = 0`,
`tomorrow` iff `d = 1`, `week` iff `2 ≤ d ≤ 7`, and `later` iff `d > 7`. -/
theorem getUrgency_spec (d today : Int) :
    getUrgency Option.none today = Urgency.none
  ∧ getUrgency (some d) today ≠ Urgency.none
  ∧ (getUrgency (some d) today = Urgency.overdue ↔ d - today < 0)
  ∧ (getUrgency (some d) today = Urgency.today ↔ d - today = 0)
  ∧ (getUrgency (some d) today = Urgency.tomorrow ↔ d - today = 1)
  ∧ (getUrgency (some d) today = Urgency.week ↔ 2 ≤ d - today ∧ d - today ≤ 7)
  ∧ (getUrgency (some d) today = Urgency.later ↔ 7 < d - today) := by
  simp only [getUrgency]
  split_ifs <;> simp_all <;> omega

/-- C1 witness: the boundary values -1, 0, 1, 2, 7, 8 land in the
specified buckets (evaluated through `getUrgency_spec`). -/
theorem getUrgency_spec_witness :
    getUrgency (some 9) 10 = Urgency.overdue
  ∧ getUrgency (some 10) 10 = Urgency.today
  ∧ getUrgency (some 11) 10 = Urgency.tomorrow
  ∧ getUrgency (some 12) 10 = Urgency.week
  ∧ getUrgency (some 17) 10 = Urgency.week
  ∧ getUrgency (some 18) 10 = Urgency.later
  ∧ getUrgency Option.none 10 = Urgency.none := by
  refine ⟨?_, ?_, ?_, ?_, ?_, ?_, (getUrgency_spec 0 10).1⟩
  · exact ((getUrgency_spec 9 10).2.2.1).mpr (by decide)
  · exact ((getUrgency_spec 10 10).2.2.2.1).mpr (by decide)
  · exact ((getUrgency_spec 11 10).2.2.2.2.1).mpr (by decide)
  · exact ((getUrgency_spec 12 10).2.2.2.2.2.1).mpr (by decide)
  · exact ((getUrgency_spec 17 10).2.2.2.2.2.1).mpr (by decide)
  · exact ((getUrgency_spec 18 10).2.2.2.2.2.2).mpr (by decide)

/-! ## Month grid (`renderMonth`, src/src/calendarRenderer.ts) -/

/-- `isLeap`: proleptic-Gregorian leap year rule (what `Date` implements). -/
def isLeap (y : Int) : Bool :=
  y % 4 = 0 && (y % 100 ≠ 0 || y % 400 = 0)

/-- `getDaysInMonth(year, month)` from src/src/calendarRenderer.ts with
0-based `month`: the source computes `new Date(year, month+1, 0).getDate()`,
whose value is the Gregorian length of that month, given here by the
standard month-length table. -/
def getDaysInMonth (year month : Int) : Int :=
  if month = 1 then (if isLeap year then 29 else 28)
  else 30 + (month + 1 + (month + 1) / 8) % 2

/-- `getFirstDayOfWeek(year, month)`: `new Date(year, month, 1).getDay()`
(0-based `month`); `getDay` of day number `z` is `(z + 4) mod 7` since
day 0 (1970-01-01) was a Thursday. -/
def getFirstDayOfWeek (year month : Int) : Int :=
  (daysFromCivil year (month + 1) 1 + 4) % 7

/-- One grid day cell as produced by `renderMonth` via `renderDayCell`:
its civil date (`month` 0-based as in the source) and the `outside`
flag marking prev/next-month fill cells. -/
structure DayCell where
  year : Int
  month : Int
  day : Int
  outside : Bool
deriving DecidableEq, Repr

/-- The sequence of day cells built by `renderMonth`
(src/src/calendarRenderer.ts): previous-month fill (the loop
`for (i = firstDay-1; i >= 0; i--)` rendering day `daysInPrev - i`),
the current month's days 1..daysInMonth, then next-month fill days
`1..remaining` with `remaining = rows*7 - totalCells` and
`rows = Math.ceil(totalCells / 7)` (for nonnegative integers,
`(totalCells + 6) / 7`).  The seven day-of-week label divs the source
adds before the cells are headers, not day cells, and are omitted. -/
def renderMonthCells (year month : Int) : List DayCell :=
  let daysInMonth := getDaysInMonth year month
  let firstDay := getFirstDayOfWeek year month
  let prevMonth := if month = 0 then 11 else month - 1
  let prevYear := if month = 0 then year - 1 else year
  let daysInPrev := getDaysInMonth prevYear prevMonth
  let prevCells := (List.range firstDay.toNat).map
    (fun k : Nat => DayCell.mk prevYear prevMonth (daysInPrev - (firstDay - 1 - (k : Int))) true)
  let curCells := (List.range daysInMonth.toNat).map
    (fun k : Nat => DayCell.mk year month ((k : Int) + 1) false)
  let totalCells := firstDay + daysInMonth
  let rows := (totalCells + 6) / 7
  let remaining := rows * 7 - totalCells
  let nextMonth := if month = 11 then 0 else month + 1
  let nextYear := if month = 11 then year + 1 else year
  let nextCells := (List.range remaining.toNat).map
    (fun k : Nat => DayCell.mk nextYear nextMonth ((k : Int) + 1) true)
  prevCells ++ curCells ++ nextCells

theorem getDaysInMonth_bounds (year month : Int) (h0 : 0 ≤ month) (h1 : month ≤ 11) :
    28 ≤ getDaysInMonth year month ∧ getDaysInMonth year month ≤ 31 := by
  simp only [getDaysInMonth, isLeap]
  split_ifs <;> omega

theorem getFirstDayOfWeek_bounds (year month : Int) :
    0 ≤ getFirstDayOfWeek year month ∧ getFirstDayOfWeek year month < 7 := by
  unfold getFirstDayOfWeek
  omega

/-- C2: the month grid has a multiple of 7 day cells — exactly
`ceil((firstWeekdayOffset + daysInMonth)/7)` rows of 7 (characterised:
the cell count is the least multiple of 7 that is at least
`firstDay + daysInMonth`); the non-fill cells list each day of the target
month exactly once in order; leading fill cells are days of the previous
month and trailing fill cells days of the next month. -/
theorem renderMonth_grid_spec (year month : Int) (h0 : 0 ≤ month) (h1 : month ≤ 11) :
    (renderMonthCells year month).length % 7 = 0
  ∧ ((renderMonthCells year month).length : Int)
      = 7 * ((getFirstDayOfWeek year month + getDaysInMonth year month + 6) / 7)
  ∧ getFirstDayOfWeek year month + getDaysInMonth year month
      ≤ ((renderMonthCells year month).length : Int)
  ∧ ((renderMonthCells year month).length : Int)
      < getFirstDayOfWeek year month + getDaysInMonth year month + 7
  ∧ (((renderMonthCells year month).filter (fun c => !c.outside)).map DayCell.day
      = (List.range (getDaysInMonth year month).toNat).map (fun k : Nat => (k : Int) + 1))
  ∧ (∀ c ∈ renderMonthCells year month, c.outside = false → c.year = year ∧ c.month = month)
  ∧ (∀ dd : Int, 1 ≤ dd → dd ≤ getDaysInMonth year month →
      (((renderMonthCells year month).filter (fun c => !c.outside)).map DayCell.day).count dd = 1)
  ∧ (∀ c ∈ (renderMonthCells year month).take (getFirstDayOfWeek year month).toNat,
      c.outside = true
      ∧ c.year = (if month = 0 then year - 1 else year)
      ∧ c.month = (if month = 0 then 11 else month - 1)
      ∧ 1 ≤ c.day
      ∧ c.day ≤ getDaysInMonth (if month = 0 then year - 1 else year)
          (if month = 0 then 11 else month - 1))
  ∧ (∀ c ∈ (renderMonthCells year month).drop
        ((getFirstDayOfWeek year month).toNat + (getDaysInMonth year month).toNat),
      c.outside = true
      ∧ c.year = (if month = 11 then year + 1 else year)
      ∧ c.month = (if month = 11 then 0 else month + 1)
      ∧ 1 ≤ c.day) := by
  have hFD := getFirstDayOfWeek_bounds year month
  have hDM := getDaysInMonth_bounds year month h0 h1
  have hPrevM : 0 ≤ (if month = 0 then 11 else month - 1)
      ∧ (if month = 0 then 11 else month - 1) ≤ 11 := by split_ifs <;> omega
  have hDP := getDaysInMonth_bounds (if month = 0 then year - 1 else year)
    (if month = 0 then 11 else month - 1) hPrevM.1 hPrevM.2
  set FD := getFirstDayOfWeek year month with hFDdef
  set DM := getDaysInMonth year month with hDMdef
  set DP := getDaysInMonth (if month = 0 then year - 1 else year)
    (if month = 0 then 11 else month - 1) with hDPdef
  have hcells : renderMonthCells year month =
      (List.range FD.toNat).map
        (fun k : Nat => DayCell.mk (if month = 0 then year - 1 else year)
          (if month = 0 then 11 else month - 1) (DP - (FD - 1 - (k : Int))) true)
      ++ (List.range DM.toNat).map (fun k : Nat => DayCell.mk year month ((k : Int) + 1) false)
      ++ (List.range ((FD + DM + 6) / 7 * 7 - (FD + DM)).toNat).map
        (fun k : Nat => DayCell.mk (if month = 11 then year + 1 else year)
          (if month = 11 then 0 else month + 1) ((k : Int) + 1) true) := by
    simp only [renderMonthCells, ← hFDdef, ← hDMdef, ← hDPdef]
  have hrem : 0 ≤ (FD + DM + 6) / 7 * 7 - (FD + DM)
      ∧ (FD + DM + 6) / 7 * 7 - (FD + DM) ≤ 6 := by omega
  have hlen : (renderMonthCells year month).length
      = FD.toNat + DM.toNat + ((FD + DM + 6) / 7 * 7 - (FD + DM)).toNat := by
    rw [hcells]; simp [List.length_append]; omega
  have hfilter : (renderMonthCells year month).filter (fun c => !c.outside)
      = (List.range DM.toNat).map (fun k : Nat => DayCell.mk year month ((k : Int) + 1) false) := by
    rw [hcells]
    simp only [List.filter_append, List.filter_map, Function.comp_def]
    simp
  refine ⟨?_, ?_, ?_, ?_, ?_, ?_, ?_, ?_, ?_⟩
  · omega
  · omega
  · omega
  · omega
  · rw [hfilter, List.map_map]; rfl
  · intro c hc hco
    rw [hcells] at hc
    simp only [List.mem_append, List.mem_map, List.mem_range] at hc
    rcases hc with (⟨k, _, rfl⟩ | ⟨k, _, rfl⟩) | ⟨k, _, rfl⟩ <;> simp_all
  · intro dd hd1 hd2
    rw [hfilter, List.map_map]
    have hcomp : (DayCell.day ∘ fun k : Nat => DayCell.mk year month ((k : Int) + 1) false)
        = fun k : Nat => (k : Int) + 1 := rfl
    rw [hcomp]
    apply List.count_eq_one_of_mem
    · exact List.Nodup.map (fun a b h => by omega) (List.nodup_range _)
    · simp only [List.mem_map, List.mem_range]
      exact ⟨(dd - 1).toNat, by omega, by omega⟩
  · intro c hc
    have htake : (renderMonthCells year month).take FD.toNat =
        (List.range FD.toNat).map
          (fun k : Nat => DayCell.mk (if month = 0 then year - 1 else year)
            (if month = 0 then 11 else month - 1) (DP - (FD - 1 - (k : Int))) true) := by
      rw [hcells, List.append_assoc, List.take_append_eq_append_take]
      simp
    rw [htake] at hc
    simp only [List.mem_map, List.mem_range] at hc
    obtain ⟨k, hk, rfl⟩ := hc
    refine ⟨rfl, rfl, rfl, ?_, ?_⟩ <;> simp <;> omega
  · intro c hc
    have hdrop : (renderMonthCells year month).drop (FD.toNat + DM.toNat) =
        (List.range ((FD + DM + 6) / 7 * 7 - (FD + DM)).toNat).map
          (fun k : Nat => DayCell.mk (if month = 11 then year + 1 else year)
            (if month = 11 then 0 else month + 1) ((k : Int) + 1) true) := by
      rw [hcells, List.append_assoc, List.drop_append_eq_append_drop,
        List.drop_append_eq_append_drop]
      simp [List.drop_eq_nil_of_le]
    rw [hdrop] at hc
    simp only [List.mem_map, List.mem_range] at hc
    obtain ⟨k, hk, rfl⟩ := hc
    refine ⟨rfl, rfl, rfl, ?_⟩ <;> simp <;> omega

/-- C2 witness: the theorem applied to February 2026 (0-based month 1). -/
theorem renderMonth_grid_spec_witness :
    (renderMonthCells 2026 1).length % 7 = 0
  ∧ ((renderMonthCells 2026 1).filter (fun c => !c.outside)).map DayCell.day
      = (List.range (getDaysInMonth 2026 1).toNat).map (fun k : Nat => (k : Int) + 1) := by
  have h := renderMonth_grid_spec 2026 1 (by decide) (by decide)
  exact ⟨h.1, h.2.2.2.2.1⟩

/-! ## Calendar view-state navigation (`renderCalendar`, src/src/calendarRenderer.ts) -/

/-- `getFullYear()` of a `Date` holding day number `z`. -/
def getFullYear (z : Int) : Int := (civilFromDays z).1

/-- `getMonth()` (0-based, as in JavaScript) of a `Date` holding day
number `z`. -/
def getMonth (z : Int) : Int := (civilFromDays z).2.1 - 1

/-- `getDate()` of a `Date` holding day number `z`. -/
def getDate (z : Int) : Int := (civilFromDays z).2.2

/-- The day number produced by `new Date(y, m, d)` for arbitrary integer
arguments, following ECMAScript `MakeDay`: the month index is normalised
by `ym = y + floor(m/12)`, `mn = m mod 12`, and the day offset is added
linearly. -/
def jsMakeDay (y m d : Int) : Int :=
  daysFromCivil (y + m / 12) (m % 12 + 1) 1 + (d - 1)

/-- The calendar `ViewMode` union type of src/src/calendarRenderer.ts. -/
inductive ViewMode where
  | month
  | week
  | day
deriving DecidableEq, Repr

/-- The calendar view state: the active view mode (`currentView`) and
the navigation anchor (`currentDate`, as a day number). -/
structure ViewState where
  mode : ViewMode
  anchor : Int
deriving DecidableEq, Repr

/-- The `prevBtn` click handler of `renderCalendar`
(src/src/calendarRenderer.ts): month mode rebuilds
`new Date(y, m-1, 1)`, week mode `new Date(y, m, d-7)`, day mode
`new Date(y, m, d-1)`; `currentView` is not modified. -/
def navPrev (s : ViewState) : ViewState :=
  match s.mode with
  | ViewMode.month =>
    { s with anchor := jsMakeDay (getFullYear s.anchor) (getMonth s.anchor - 1) 1 }
  | ViewMode.week =>
    { s with anchor := jsMakeDay (getFullYear s.anchor) (getMonth s.anchor) (getDate s.anchor - 7) }
  | ViewMode.day =>
    { s with anchor := jsMakeDay (getFullYear s.anchor) (getMonth s.anchor) (getDate s.anchor - 1) }

/-- The `nextBtn` click handler of `renderCalendar`: month mode rebuilds
`new Date(y, m+1, 1)`, week mode `new Date(y, m, d+7)`, day mode
`new Date(y, m, d+1)`; `currentView` is not modified. -/
def navNext (s : ViewState) : ViewState :=
  match s.mode with
  | ViewMode.month =>
    { s with anchor := jsMakeDay (getFullYear s.anchor) (getMonth s.anchor + 1) 1 }
  | ViewMode.week =>
    { s with anchor := jsMakeDay (getFullYear s.anchor) (getMonth s.anchor) (getDate s.anchor + 7) }
  | ViewMode.day =>
    { s with anchor := jsMakeDay (getFullYear s.anchor) (getMonth s.anchor) (getDate s.anchor + 1) }

/-- `daysFromCivil` is linear in the day argument. -/
theorem daysFromCivil_day_linear (y m d : Int) :
    daysFromCivil y m d = daysFromCivil y m 1 + (d - 1) := by
  simp only [daysFromCivil]
  split_ifs <;> ring

/-- Rebuilding a date from a day number's own components through
`jsMakeDay` shifts the day number exactly by the day offset. -/
theorem jsMakeDay_self (z d : Int) :
    jsMakeDay (getFullYear z) (getMonth z) d = z + (d - getDate z) := by
  have hm := civilFromDays_m_bounds z
  have hrt := daysFromCivil_civilFromDays z
  unfold jsMakeDay getFullYear getMonth getDate
  have h1 : ((civilFromDays z).2.1 - 1) / 12 = 0 := by omega
  have h2 : ((civilFromDays z).2.1 - 1) % 12 = (civilFromDays z).2.1 - 1 := by omega
  rw [h1, h2]
  have h3 : (civilFromDays z).2.1 - 1 + 1 = (civilFromDays z).2.1 := by ring
  rw [add_zero, h3]
  have h4 := daysFromCivil_day_linear (civilFromDays z).1 (civilFromDays z).2.1
    (civilFromDays z).2.2
  omega

/-- C5: `prev`/`next` leave the mode unchanged and shift the anchor by
exactly one unit of the current mode — minus/plus 7 days in week mode,
minus/plus 1 day in day mode, and in month mode to the first day of the
previous/next calendar month (day clamped to the 1st). -/
theorem nav_spec (a : Int) :
    (∀ mo : ViewMode, (navPrev (ViewState.mk mo a)).mode = mo
        ∧ (navNext (ViewState.mk mo a)).mode = mo)
  ∧ (navPrev (ViewState.mk ViewMode.week a)).anchor = a - 7
  ∧ (navNext (ViewState.mk ViewMode.week a)).anchor = a + 7
  ∧ (navPrev (ViewState.mk ViewMode.day a)).anchor = a - 1
  ∧ (navNext (ViewState.mk ViewMode.day a)).anchor = a + 1
  ∧ (navPrev (ViewState.mk ViewMode.month a)).anchor =
      (if getMonth a = 0 then daysFromCivil (getFullYear a - 1) 12 1
       else daysFromCivil (getFullYear a) (getMonth a) 1)
  ∧ (navNext (ViewState.mk ViewMode.month a)).anchor =
      (if getMonth a = 11 then daysFromCivil (getFullYear a + 1) 1 1
       else daysFromCivil (getFullYear a) (getMonth a + 2) 1) := by
  have hm := civilFromDays_m_bounds a
  refine ⟨fun mo => by cases mo <;> exact ⟨rfl, rfl⟩, ?_, ?_, ?_, ?_, ?_, ?_⟩
  · show jsMakeDay (getFullYear a) (getMonth a) (getDate a - 7) = a - 7
    rw [jsMakeDay_self]; ring
  · show jsMakeDay (getFullYear a) (getMonth a) (getDate a + 7) = a + 7
    rw [jsMakeDay_self]; ring
  · show jsMakeDay (getFullYear a) (getMonth a) (getDate a - 1) = a - 1
    rw [jsMakeDay_self]; ring
  · show jsMakeDay (getFullYear a) (getMonth a) (getDate a + 1) = a + 1
    rw [jsMakeDay_self]; ring
  · show jsMakeDay (getFullYear a) (getMonth a - 1) 1 = _
    unfold jsMakeDay getFullYear getMonth
    by_cases h0 : (civilFromDays a).2.1 = 1
    · have e1 : ((civilFromDays a).2.1 - 1 - 1) / 12 = -1 := by omega
      have e2 : ((civilFromDays a).2.1 - 1 - 1) % 12 = 11 := by omega
      have e3 : (civilFromDays a).2.1 - 1 = 0 := by omega
      rw [e1, e2, if_pos e3]
      ring_nf
    · have e1 : ((civilFromDays a).2.1 - 1 - 1) / 12 = 0 := by omega
      have e2 : ((civilFromDays a).2.1 - 1 - 1) % 12 = (civilFromDays a).2.1 - 2 := by omega
      have e3 : ¬ ((civilFromDays a).2.1 - 1 = 0) := by omega
      rw [e1, e2, if_neg e3]
      ring_nf
  · show jsMakeDay (getFullYear a) (getMonth a + 1) 1 = _
    unfold jsMakeDay getFullYear getMonth
    by_cases h0 : (civilFromDays a).2.1 = 12
    · have e1 : ((civilFromDays a).2.1 - 1 + 1) / 12 = 1 := by omega
      have e2 : ((civilFromDays a).2.1 - 1 + 1) % 12 = 0 := by omega
      have e3 : (civilFromDays a).2.1 - 1 = 11 := by omega
      rw [e1, e2, if_pos e3]
      ring_nf
    · have e1 : ((civilFromDays a).2.1 - 1 + 1) / 12 = 0 := by omega
      have e2 : ((civilFromDays a).2.1 - 1 + 1) % 12 = (civilFromDays a).2.1 := by omega
      have e3 : ¬ ((civilFromDays a).2.1 - 1 = 11) := by omega
      rw [e1, e2, if_neg e3]
      ring_nf

/-- C5 witness: navigating from 2026-02-12 (day number 20496). -/
theorem nav_spec_witness :
    (navPrev (ViewState.mk ViewMode.week 20496)).anchor = 20489
  ∧ (navNext (ViewState.mk ViewMode.day 20496)).anchor = 20497
  ∧ (navPrev (ViewState.mk ViewMode.month 20496)).mode = ViewMode.month := by
  have h := nav_spec 20496
  exact ⟨h.2.1, h.2.2.2.2.1, (h.1 ViewMode.month).1⟩

/-! ## Todo list: collection sort (`collectItems` / `renderTodoList`,
src/unnamed/part_002 and part_001) -/

/-- Character-list comparison by character code; the behaviour of
`String.prototype.localeCompare` on the ASCII `YYYY-MM-DD` date keys the
comparator receives (sign-normalised to -1/0/1). -/
def charListCompare : List Char → List Char → Int
  | [], [] => 0
  | [], _ :: _ => -1
  | _ :: _, [] => 1
  | c :: cs, d :: ds =>
    if c.toNat < d.toNat then -1
    else if d.toNat < c.toNat then 1
    else charListCompare cs ds

/-- `a.localeCompare(b)` as used by the due-date comparator. -/
def localeCompare (a b : String) : Int := charListCompare a.data b.data

/-- The sort comparator of `collectItems` (src/unnamed/part_002, lines
53-58) and `renderTodoList` (src/unnamed/part_001, lines 57-62):
`(a, b) => { if (!a.due && !b.due) return 0; if (!a.due) return 1;
if (!b.due) return -1; return a.due.localeCompare(b.due); }`. -/
def compareDue : Option String → Option String → Int
  | Option.none, Option.none => 0
  | Option.none, some _ => 1
  | some _, Option.none => -1
  | some a, some b => localeCompare a b

/-- An item of the todo list view (`TodoItem` in src/unnamed/part_001
and part_002); the backing-file handle is represented by the display
name derived from it. -/
structure TodoItem where
  name : String
  due : Option String
  subject : String
  urgency : Urgency
deriving DecidableEq, Repr

/-- Insert an item into an already-sorted list, after any item it does
not strictly precede.  `Array.prototype.sort` is a stable sort
(ECMAScript 2019 and later), and for a consistent comparator the stable
sorted output is unique; left-to-right stable insertion computes it. -/
def insertSorted (x : TodoItem) : List TodoItem → List TodoItem
  | [] => [x]
  | y :: ys => if compareDue x.due y.due < 0 then x :: y :: ys else y :: insertSorted x ys

/-- `items.sort(comparator)` of the todo renderers, as stable insertion
of the items in order. -/
def sortByDue (items : List TodoItem) : List TodoItem :=
  items.foldl (fun acc x => insertSorted x acc) []

/-- The ordering the sorted list satisfies: due dates ascending, due-less
items last. -/
def DueOrder (x y : TodoItem) : Prop :=
  match x.due, y.due with
  | some a, some b => charListCompare a.data b.data ≤ 0
  | some _, Option.none => True
  | Option.none, Option.none => True
  | Option.none, some _ => False

theorem charListCompare_anti (a b : List Char) :
    charListCompare a b = - charListCompare b a := by
  induction a generalizing b with
  | nil => cases b <;> simp [charListCompare]
  | cons c cs ih =>
    cases b with
    | nil => simp [charListCompare]
    | cons d ds =>
      simp only [charListCompare]
      split_ifs <;> first | omega | exact ih ds

theorem charListCompare_trans (a b c : List Char)
    (h1 : charListCompare a b ≤ 0) (h2 : charListCompare b c ≤ 0) :
    charListCompare a c ≤ 0 := by
  induction a generalizing b c with
  | nil => cases c <;> simp [charListCompare]
  | cons x xs ih =>
    cases b with
    | nil => simp [charListCompare] at h1
    | cons y ys =>
      cases c with
      | nil => simp [charListCompare] at h2
      | cons z zs =>
        simp only [charListCompare] at h1 h2 ⊢
        split_ifs at h1 h2 ⊢ <;> first | rfl | omega | exact ih ys zs h1 h2

theorem compareDue_anti (a b : Option String) : compareDue a b = - compareDue b a := by
  cases a <;> cases b <;> simp [compareDue, localeCompare] <;>
    exact charListCompare_anti _ _

theorem compareDue_trans (a b c : Option String)
    (h1 : compareDue a b ≤ 0) (h2 : compareDue b c ≤ 0) : compareDue a c ≤ 0 := by
  cases a <;> cases b <;> cases c <;>
    simp_all [compareDue, localeCompare] <;>
    exact charListCompare_trans _ _ _ h1 h2

theorem dueOrder_iff (x y : TodoItem) : DueOrder x y ↔ compareDue x.due y.due ≤ 0 := by
  cases hx : x.due <;> cases hy : y.due <;>
    simp [DueOrder, compareDue, localeCompare, hx, hy]

theorem insertSorted_perm (x : TodoItem) (l : List TodoItem) :
    (insertSorted x l).Perm (x :: l) := by
  induction l with
  | nil => simp [insertSorted]
  | cons y ys ih =>
    simp only [insertSorted]
    split_ifs with h
    · exact List.Perm.refl _
    · exact (List.Perm.cons y ih).trans (List.Perm.swap x y ys)

theorem insertSorted_pairwise (x : TodoItem) (l : List TodoItem)
    (h : l.Pairwise DueOrder) : (insertSorted x l).Pairwise DueOrder := by
  induction l with
  | nil => simp [insertSorted]
  | cons y ys ih =>
    rw [List.pairwise_cons] at h
    simp only [insertSorted]
    split_ifs with hx
    · rw [List.pairwise_cons]
      constructor
      · intro z hz
        rcases List.mem_cons.mp hz with rfl | hz2
        · rw [dueOrder_iff]; omega
        · have hyz := h.1 z hz2
          rw [dueOrder_iff] at hyz ⊢
          exact compareDue_trans _ _ _ (by omega) hyz
      · rw [List.pairwise_cons]; exact h
    · rw [List.pairwise_cons]
      constructor
      · intro z hz
        have hz' := (insertSorted_perm x ys).mem_iff.mp hz
        rcases List.mem_cons.mp hz' with rfl | hz2
        · rw [dueOrder_iff]
          have := compareDue_anti z.due y.due
          omega
        · exact h.1 z hz2
      · exact ih h.2

theorem sortByDue_perm_aux (l : List TodoItem) :
    ∀ acc : List TodoItem,
      (l.foldl (fun acc x => insertSorted x acc) acc).Perm (l ++ acc) := by
  induction l with
  | nil => intro acc; simp
  | cons x xs ih =>
    intro acc
    simp only [List.foldl_cons]
    refine ((ih (insertSorted x acc)).trans ?_)
    refine (List.Perm.append_left xs (insertSorted_perm x acc)).trans ?_
    exact List.perm_middle

theorem sortByDue_pairwise_aux (l : List TodoItem) :
    ∀ acc : List TodoItem, acc.Pairwise DueOrder →
      (l.foldl (fun acc x => insertSorted x acc) acc).Pairwise DueOrder := by
  induction l with
  | nil => intro acc h; exact h
  | cons x xs ih => intro acc h; exact ih _ (insertSorted_pairwise x acc h)

/-- C3: sorting the collected items orders them by due date ascending
with all due-less items last (the output is a permutation of the input
that is pairwise ordered), and the sort is stable: on the item list with
dues `[none, 2026-02-20, none, 2026-02-10]` it yields
`[2026-02-10, 2026-02-20, none, none]` with the two due-less items in
their original relative order. -/
theorem sortByDue_spec :
    (∀ items : List TodoItem,
        (sortByDue items).Perm items ∧ (sortByDue items).Pairwise DueOrder)
  ∧ sortByDue
      [TodoItem.mk ("essay") Option.none ("History") Urgency.none,
       TodoItem.mk ("lab") (some ("2026-02-20")) ("Physics") Urgency.later,
       TodoItem.mk ("quiz") Option.none ("Math") Urgency.none,
       TodoItem.mk ("pset") (some ("2026-02-10")) ("Math") Urgency.overdue]
    = [TodoItem.mk ("pset") (some ("2026-02-10")) ("Math") Urgency.overdue,
       TodoItem.mk ("lab") (some ("2026-02-20")) ("Physics") Urgency.later,
       TodoItem.mk ("essay") Option.none ("History") Urgency.none,
       TodoItem.mk ("quiz") Option.none ("Math") Urgency.none] := by
  constructor
  · intro items
    constructor
    · simpa using sortByDue_perm_aux items []
    · exact sortByDue_pairwise_aux items [] (List.Pairwise.nil)
  · decide

/-- C3 witness: the concrete stable-sort scenario evaluated through
`sortByDue_spec`. -/
theorem sortByDue_spec_witness :
    sortByDue
      [TodoItem.mk ("essay") Option.none ("History") Urgency.none,
       TodoItem.mk ("lab") (some ("2026-02-20")) ("Physics") Urgency.later,
       TodoItem.mk ("quiz") Option.none ("Math") Urgency.none,
       TodoItem.mk ("pset") (some ("2026-02-10")) ("Math") Urgency.overdue]
    = [TodoItem.mk ("pset") (some ("2026-02-10")) ("Math") Urgency.overdue,
       TodoItem.mk ("lab") (some ("2026-02-20")) ("Physics") Urgency.later,
       TodoItem.mk ("essay") Option.none ("History") Urgency.none,
       TodoItem.mk ("quiz") Option.none ("Math") Urgency.none] :=
  sortByDue_spec.2

/-! ## Todo list: urgency sections (`renderItems`, src/unnamed/part_002;
`renderTodoList`, src/unnamed/part_001) -/

/-- `SECTION_ORDER` from the todo renderers. -/
def SECTION_ORDER : List Urgency :=
  [Urgency.overdue, Urgency.today, Urgency.tomorrow, Urgency.week,
   Urgency.later, Urgency.none]

/-- `SECTION_LABELS` from the todo renderers. -/
def sectionLabel : Urgency → String
  | Urgency.overdue => "Overdue"
  | Urgency.today => "Due Today"
  | Urgency.tomorrow => "Due Tomorrow"
  | Urgency.week => "This Week"
  | Urgency.later => "Later"
  | Urgency.none => "No Due Date"

/-- The section the date-sort mode emits for one urgency key, if any:
the renderer builds `grouped[key]` by pushing items in order (equal to
filtering the item list by that urgency) and skips the section when it
is empty (`if (!sectionItems || sectionItems.length === 0) continue`). -/
def sectionFor (items : List TodoItem) (u : Urgency) : Option (String × List TodoItem) :=
  let sectionItems := items.filter (fun it => it.urgency == u)
  if sectionItems.isEmpty then Option.none
  else some (sectionLabel u, sectionItems)

/-- The list sections emitted by `renderItems` in `date` sort mode
(src/unnamed/part_002, lines 71-92): one section per `SECTION_ORDER`
key with a non-empty group, in that fixed order. -/
def renderSectionsByDate (items : List TodoItem) : List (String × List TodoItem) :=
  SECTION_ORDER.filterMap (sectionFor items)

theorem sections_sublist (items : List TodoItem) (l : List Urgency) :
    ((l.filterMap (sectionFor items)).map Prod.fst).Sublist (l.map sectionLabel) := by
  induction l with
  | nil => simp
  | cons u us ih =>
    by_cases h : (items.filter (fun it => it.urgency == u)).isEmpty
    · simp only [List.filterMap_cons, sectionFor, h, if_pos, List.map_cons]
      exact ih.cons _
    · simp only [List.filterMap_cons, sectionFor, h, if_neg, List.map_cons]
      exact ih.cons₂ _

theorem sectionLabel_inj (u v : Urgency) (h : sectionLabel u = sectionLabel v) : u = v := by
  revert h
  cases u <;> cases v <;> decide

/-- C4: in date sort mode the items are grouped by urgency bucket and the
non-empty sections appear in exactly the fixed order overdue, today,
tomorrow, week, later, none, empty sections being omitted; the concrete
scenario with items due 2026-02-10, 2026-02-12, 2026-02-20 and today
fixed at 2026-02-12 yields exactly the sections
`Overdue, Due Today, Later`. -/
theorem renderSections_spec :
    (∀ items : List TodoItem,
        ((renderSectionsByDate items).map Prod.fst).Sublist (SECTION_ORDER.map sectionLabel)
      ∧ (∀ s ∈ renderSectionsByDate items,
          s.2 ≠ [] ∧ ∃ u ∈ SECTION_ORDER, s.1 = sectionLabel u
            ∧ s.2 = items.filter (fun it => it.urgency == u))
      ∧ (∀ u ∈ SECTION_ORDER, items.filter (fun it => it.urgency == u) ≠ [] →
          (sectionLabel u, items.filter (fun it => it.urgency == u))
            ∈ renderSectionsByDate items))
  ∧ (renderSectionsByDate
      [TodoItem.mk ("pset") (some ("2026-02-10")) ("Math")
         (getUrgency (some (daysFromCivil 2026 2 10)) (daysFromCivil 2026 2 12)),
       TodoItem.mk ("quiz") (some ("2026-02-12")) ("Math")
         (getUrgency (some (daysFromCivil 2026 2 12)) (daysFromCivil 2026 2 12)),
       TodoItem.mk ("lab") (some ("2026-02-20")) ("Physics")
         (getUrgency (some (daysFromCivil 2026 2 20)) (daysFromCivil 2026 2 12))]).map
      Prod.fst
    = [("Overdue" : String), ("Due Today" : String), ("Later" : String)] := by
  constructor
  · intro items
    refine ⟨sections_sublist items SECTION_ORDER, ?_, ?_⟩
    · intro s hs
      obtain ⟨u, hu, heq⟩ := List.mem_filterMap.mp hs
      unfold sectionFor at heq
      by_cases h : (items.filter (fun it => it.urgency == u)).isEmpty
      · simp [h] at heq
      · rw [if_neg h] at heq
        obtain rfl := Option.some.inj heq
        refine ⟨by simpa using h, u, hu, rfl, rfl⟩
    · intro u hu hne
      refine List.mem_filterMap.mpr ⟨u, hu, ?_⟩
      unfold sectionFor
      rw [if_neg (by simpa using hne)]
  · decide

/-- C4 witness: the concrete three-section scenario evaluated through
`renderSections_spec`. -/
theorem renderSections_spec_witness :
    (renderSectionsByDate
      [TodoItem.mk ("pset") (some ("2026-02-10")) ("Math")
         (getUrgency (some (daysFromCivil 2026 2 10)) (daysFromCivil 2026 2 12)),
       TodoItem.mk ("quiz") (some ("2026-02-12")) ("Math")
         (getUrgency (some (daysFromCivil 2026 2 12)) (daysFromCivil 2026 2 12)),
       TodoItem.mk ("lab") (some ("2026-02-20")) ("Physics")
         (getUrgency (some (daysFromCivil 2026 2 20)) (daysFromCivil 2026 2 12))]).map
      Prod.fst
    = [("Overdue" : String), ("Due Today" : String), ("Later" : String)] :=
  renderSections_spec.2

/-! ## Month-grid cell item cap (`renderDayCell`, src/src/calendarRenderer.ts,
richer variant, lines 566-601) -/

/-- The per-cell rendering of `renderDayCell`: `MAX_VISIBLE = 2`,
`visible = items.slice(0, MAX_VISIBLE)`, `overflow = items.length -
MAX_VISIBLE`, and an overflow div with text `` `+${overflow} more` ``
exactly when `overflow > 0`.  Each inline item is represented by the
display name its pill shows. -/
def renderDayCellItems (names : List String) : List String × Option String :=
  let visible := names.take 2
  let overflow : Int := (names.length : Int) - 2
  (visible, if 0 < overflow then some (("+" ++ toString overflow) ++ (" more")) else Option.none)

/-- C8: at most 2 items render inline (the first 2 in index order — the
rendered pills are a prefix of the item list of length `min 2 n`); with
`n > 2` items the cell shows a `+N more` affordance with `N = n - 2`,
and no affordance otherwise; items beyond the cap are only deferred, not
lost (`take 2` and `drop 2` recombine to the full cell item list). -/
theorem renderDayCell_spec (names : List String) :
    (renderDayCellItems names).1.length ≤ 2
  ∧ (renderDayCellItems names).1.length = min 2 names.length
  ∧ (renderDayCellItems names).1 <+: names
  ∧ (renderDayCellItems names).2
      = (if 2 < names.length
         then some (("+" ++ toString ((names.length : Int) - 2)) ++ (" more"))
         else Option.none)
  ∧ names.take 2 ++ names.drop 2 = names := by
  refine ⟨?_, ?_, ?_, ?_, ?_⟩
  · simp [renderDayCellItems]
  · simp [renderDayCellItems]
  · exact List.take_prefix 2 names
  · simp only [renderDayCellItems]
    split_ifs <;> first | rfl | omega
  · exact List.take_append_drop 2 names

/-- C8 witness: a cell with four items shows two pills and `+2 more`. -/
theorem renderDayCell_spec_witness :
    (renderDayCellItems [("a"), ("b"), ("c"), ("d")]).2 = some ("+2 more")
  ∧ (renderDayCellItems [("a"), ("b"), ("c"), ("d")]).1 = [("a"), ("b")]
  ∧ (renderDayCellItems [("a")]).2 = Option.none := by
  have h4 := renderDayCell_spec [("a"), ("b"), ("c"), ("d")]
  have h1 := renderDayCell_spec [("a")]
  refine ⟨?_, ?_, ?_⟩
  · rw [h4.2.2.2.1]; decide
  · decide
  · rw [h1.2.2.2.1]; decide

/-! ## Canvas API pagination (`fetchAssignments` / `parseLinkHeader`,
src/src/canvasApi.ts) -/

/-- The `CanvasAssignment` interface of src/src/canvasApi.ts. -/
structure CanvasAssignment where
  id : Int
  name : String
  description : Option String
  due_at : Option String
  html_url : String
  course_id : Int
  points_possible : Option Int
  submission_types : List String
  published : Bool
deriving DecidableEq, Repr

/-- One HTTP response as the fetch loop observes it: the status code,
the parsed assignment array of the body (`JSON.parse(response.text)`),
and the `Link` header when present (`response.headers["link"] ||
response.headers["Link"]`, collapsed into one optional field). -/
structure HttpResponse where
  status : Int
  assignments : List CanvasAssignment
  link : Option String
deriving Repr

/-- `normalizeBaseUrl`: `baseUrl.replace(/\/+$/, "")`, i.e. strip all
trailing slashes. -/
def normalizeBaseUrl (s : String) : String :=
  String.mk ((s.data.reverse.dropWhile (fun c => c = '/')).reverse)

/-- The initial request URL built by `fetchAssignments`. -/
def assignmentsUrl (baseUrl courseId : String) : String :=
  ((normalizeBaseUrl baseUrl ++ ("/api/v1/courses/")) ++ courseId)
    ++ ("/assignments?order_by=due_at&per_page=100")

/-- Match the regex `/<([^>]+)>;\s*rel="([^"]+)"/` at the start of the
character list, returning the two capture groups `(url, rel)`. -/
def matchLinkAt (cs : List Char) : Option (String × String) :=
  match cs with
  | '<' :: rest =>
    let url := rest.takeWhile (fun c => c ≠ '>')
    if url.isEmpty then Option.none else
    match rest.dropWhile (fun c => c ≠ '>') with
    | '>' :: ';' :: rest2 =>
      match rest2.dropWhile Char.isWhitespace with
      | 'r' :: 'e' :: 'l' :: '=' :: '"' :: rest4 =>
        let rel := rest4.takeWhile (fun c => c ≠ '"')
        if rel.isEmpty then Option.none else
        match rest4.dropWhile (fun c => c ≠ '"') with
        | '"' :: _ => some (String.mk url, String.mk rel)
        | _ => Option.none
      | _ => Option.none
    | _ => Option.none
  | _ => Option.none

/-- Leftmost match of the link regex anywhere in the string, as
`String.prototype.match` finds it. -/
def searchLink : List Char → Option (String × String)
  | [] => Option.none
  | c :: rest =>
    match matchLinkAt (c :: rest) with
    | some r => some r
    | Option.none => searchLink rest

/-- `part.split(",")` at character level. -/
def splitOnComma : List Char → List Char → List (List Char)
  | [], acc => [acc.reverse]
  | c :: rest, acc =>
    if c = ',' then acc.reverse :: splitOnComma rest [] else splitOnComma rest (c :: acc)

/-- `parseLinkHeader` from src/src/canvasApi.ts: split the header on
commas, match each part against the link regex, and collect
`rel ↦ url` entries in order (JavaScript whitespace in the regex is
modelled by ASCII whitespace, which covers HTTP headers). -/
def parseLinkHeader (linkHeader : String) : List (String × String) :=
  (splitOnComma linkHeader.data []).filterMap
    (fun part => (searchLink part).map (fun p => (p.2, p.1)))

/-- `links[rel]` after the assignments of `parseLinkHeader`'s loop: the
last entry for a key wins, as repeated object assignment does. -/
def lookupRel (links : List (String × String)) (rel : String) : Option String :=
  links.foldl (fun acc kv => if kv.1 = rel then some kv.2 else acc) Option.none

/-- The continuation URL the fetch loop extracts from a response:
`links["next"] || null` when a `Link` header is present, else `null`. -/
def nextUrl (r : HttpResponse) : Option String :=
  match r.link with
  | Option.none => Option.none
  | some h => lookupRel (parseLinkHeader h) ("next")

/-- The `while (url)` pagination loop of `fetchAssignments`
(src/src/canvasApi.ts, lines 59-98), over an abstract transport
`url ↦ response` (the `requestUrl` calls with the bearer-token header).
The JavaScript loop is unbounded; `fuel` makes the recursion structural
and every theorem supplies fuel at least the page-chain length.  Returns
the list of URLs requested together with the accumulated assignments,
or the thrown error message for a non-200 response. -/
def fetchAssignmentsLoop (transport : String → HttpResponse) (courseId : String) :
    Nat → String → Except String (List String × List CanvasAssignment)
  | 0, _ => Except.error ("pagination did not terminate")
  | fuel + 1, url =>
    let r := transport url
    if r.status ≠ 200 then
      Except.error ((("Failed to fetch assignments for course " ++ courseId) ++ (": "))
        ++ toString r.status)
    else
      match nextUrl r with
      | Option.none => Except.ok ([url], r.assignments)
      | some u2 =>
        match fetchAssignmentsLoop transport courseId fuel u2 with
        | Except.error e => Except.error e
        | Except.ok (us, items) => Except.ok (url :: us, r.assignments ++ items)

/-- `fetchAssignments(baseUrl, token, courseId)`: run the pagination
loop from the initial assignments URL. -/
def fetchAssignments (transport : String → HttpResponse) (baseUrl courseId : String)
    (fuel : Nat) : Except String (List String × List CanvasAssignment) :=
  fetchAssignmentsLoop transport courseId fuel (assignmentsUrl baseUrl courseId)

/-- A finite page chain under a transport: every page responds 200, each
page's `Link` header designates the next URL, and the last page has no
next link. -/
def chainOk (transport : String → HttpResponse) : List String → Bool
  | [] => false
  | [u] => (transport u).status == 200 && (nextUrl (transport u)).isNone
  | u :: u2 :: rest =>
    ((transport u).status == 200 && (nextUrl (transport u) == some u2))
      && chainOk transport (u2 :: rest)

theorem fetchAssignmentsLoop_chain (transport : String → HttpResponse) (courseId : String)
    (rest : List String) :
    ∀ (u : String) (fuel : Nat),
      chainOk transport (u :: rest) = true → rest.length + 1 ≤ fuel →
      fetchAssignmentsLoop transport courseId fuel u
        = Except.ok (u :: rest,
            ((u :: rest).map (fun v => (transport v).assignments)).flatten) := by
  induction rest with
  | nil =>
    intro u fuel hchain hfuel
    obtain ⟨f, rfl⟩ : ∃ f, fuel = f + 1 := ⟨fuel - 1, by omega⟩
    simp only [chainOk, Bool.and_eq_true, beq_iff_eq, Option.isNone_iff_eq_none] at hchain
    simp only [fetchAssignmentsLoop]
    rw [if_neg (by rw [hchain.1]; omega), hchain.2]
    dsimp only
    refine congrArg Except.ok (congrArg (Prod.mk [u]) ?_)
    simp
  | cons u2 rest2 ih =>
    intro u fuel hchain hfuel
    obtain ⟨f, rfl⟩ : ∃ f, fuel = f + 1 := ⟨fuel - 1, by omega⟩
    simp only [chainOk, Bool.and_eq_true, beq_iff_eq] at hchain
    have hrec := ih u2 f hchain.2 (by simpa using Nat.le_of_succ_le_succ hfuel)
    simp only [fetchAssignmentsLoop]
    rw [if_neg (by rw [hchain.1.1]; omega), hchain.1.2]
    dsimp only
    rw [hrec]
    dsimp only
    refine congrArg Except.ok (congrArg (Prod.mk (u :: u2 :: rest2)) ?_)
    simp

/-- C6: when the transport serves a finite chain of pages — each page
answering 200 and naming its successor via a `Link` header `rel="next"`
entry, the last page having none — the assignment fetch requests exactly
the pages of the chain in order and returns the concatenation of their
assignment arrays; in particular with a two-page chain it performs
exactly two requests and returns page 1's items followed by page 2's. -/
theorem fetchAssignments_spec (transport : String → HttpResponse)
    (baseUrl courseId : String) (rest : List String) (fuel : Nat)
    (hchain : chainOk transport (assignmentsUrl baseUrl courseId :: rest) = true)
    (hfuel : rest.length + 1 ≤ fuel) :
    fetchAssignments transport baseUrl courseId fuel
      = Except.ok (assignmentsUrl baseUrl courseId :: rest,
          ((assignmentsUrl baseUrl courseId :: rest).map
            (fun v => (transport v).assignments)).flatten) :=
  fetchAssignmentsLoop_chain transport courseId rest _ fuel hchain hfuel

/-- First demo assignment page item. -/
def demoAsg (n : Int) (nm : String) : CanvasAssignment :=
  CanvasAssignment.mk n nm Option.none Option.none ("") 42 Option.none [] true

/-- A two-page demo transport: the initial assignments URL answers with
two items and a `Link: <p2>; rel="next"` header; `p2` answers with one
item and no link; anything else is a 404. -/
def demoTransport : String → HttpResponse := fun url =>
  if url = assignmentsUrl ("https://c.edu") ("42") then
    HttpResponse.mk 200 [demoAsg 1 ("hw1"), demoAsg 2 ("hw2")]
      (some ("<p2>; rel=\"next\""))
  else if url = ("p2") then
    HttpResponse.mk 200 [demoAsg 3 ("hw3")] Option.none
  else HttpResponse.mk 404 [] Option.none

/-- C6 witness: the two-page scenario — both pages are fetched, in
order, and the result is the concatenation of their items. -/
theorem fetchAssignments_spec_witness :
    fetchAssignments demoTransport ("https://c.edu") ("42") 2
      = Except.ok ([assignmentsUrl ("https://c.edu") ("42"), ("p2")],
          [demoAsg 1 ("hw1"), demoAsg 2 ("hw2"), demoAsg 3 ("hw3")]) := by
  have h := fetchAssignments_spec demoTransport ("https://c.edu") ("42") [("p2")] 2
    (by decide) (by decide)
  have e : (([assignmentsUrl ("https://c.edu") ("42"), ("p2")]).map
      (fun v => (demoTransport v).assignments)).flatten
      = [demoAsg 1 ("hw1"), demoAsg 2 ("hw2"), demoAsg 3 ("hw3")] := by decide
  rw [h, e]

/-! ## Assignment sync (`syncAssignments` / `findExistingCanvasIds` /
`createAssignmentNote`, src/unnamed/part_003; `sanitizeFilename`,
src/src/utils.ts) -/

/-- `startsWith` on strings, at character level. -/
def sStartsWith (pre s : String) : Bool := List.isPrefixOf pre.data s.data

/-- A vault file as the sync code observes it: its path, extension, and
the `canvas-id` front-matter value the metadata index exposes for it. -/
structure VFile where
  path : String
  ext : String
  canvasId : Option String
deriving DecidableEq, Repr

/-- The vault: its files and its folders.
`app.vault.getAbstractFileByPath(p)` is truthy when a folder or file
with path `p` exists. -/
structure Vault where
  files : List VFile
  folders : List String
deriving DecidableEq, Repr

/-- `getAbstractFileByPath(p) !== null`. -/
def pathExists (v : Vault) (p : String) : Bool :=
  v.folders.contains p || v.files.any (fun f => f.path == p)

/-- `findExistingCanvasIds` from src/unnamed/part_003 (lines 6-29): for
each subfolder that exists, collect the `canvas-id` front-matter values
of the markdown files under it.  The JavaScript `Set` is modelled by the
collected list, queried by membership. -/
def findExistingCanvasIds (v : Vault) (basePath : String) :
    List String → List String
  | [] => []
  | sub :: subs =>
    let folderPath := (basePath ++ ("/")) ++ sub
    (if pathExists v folderPath then
      (v.files.filter (fun f =>
        sStartsWith (folderPath ++ ("/")) f.path && f.ext == ("md"))).filterMap
          VFile.canvasId
    else []) ++ findExistingCanvasIds v basePath subs

/-- Forbidden filename characters of `sanitizeFilename`
(the regex `[/\\:*?"<>|]`). -/
def isForbiddenChar (c : Char) : Bool :=
  c = '/' || c = '\\' || c = ':' || c = '*' || c = '?' || c = '"' || c = '<'
    || c = '>' || c = '|'

/-- Collapse every whitespace run to a single space
(`.replace(/\s+/g, " ")`). -/
def collapseWs : List Char → List Char
  | [] => []
  | c :: rest =>
    if c.isWhitespace then ' ' :: collapseWs (rest.dropWhile Char.isWhitespace)
    else c :: collapseWs rest
termination_by cs => cs.length
decreasing_by
  · simp only [List.length_cons]
    exact Nat.lt_succ_of_le (List.dropWhile_sublist _).length_le
  · simp

/-- `.trim()` at character level. -/
def trimChars (l : List Char) : List Char :=
  ((l.dropWhile Char.isWhitespace).reverse.dropWhile Char.isWhitespace).reverse

/-- `sanitizeFilename` from src/src/utils.ts: strip forbidden characters,
collapse whitespace, trim, and truncate to 100 characters. -/
def sanitizeFilename (name : String) : String :=
  String.mk ((trimChars (collapseWs (name.data.filter (fun c => !isForbiddenChar c)))).take 100)

/-- `CourseMappingConfig` from src/src/canvasApi.ts (settings part). -/
structure CourseMappingConfig where
  canvasCourseName : String
  subject : String
  subjectTag : String
deriving DecidableEq, Repr

/-- `createAssignmentNote` from src/unnamed/part_003 (lines 40-105) at
the metadata level: ensure the subject's Todo folder exists (idempotent),
pick `baseName.md` or `baseName (id).md` on collision, and create the
note file, whose front matter carries `canvas-id: "${assignment.id}"`. -/
def createAssignmentNote (v : Vault) (a : CanvasAssignment)
    (mapping : CourseMappingConfig) (basePath : String) : Vault :=
  let todoFolder := ((basePath ++ ("/")) ++ mapping.subject) ++ ("/Todo")
  let v1 := if pathExists v todoFolder then v else Vault.mk v.files (todoFolder :: v.folders)
  let baseName := sanitizeFilename a.name
  let fp0 := ((todoFolder ++ ("/")) ++ baseName) ++ (".md")
  let filePath := if pathExists v1 fp0
    then ((todoFolder ++ ("/")) ++ baseName) ++ (((" (") ++ toString a.id ++ (")")) ++ (".md"))
    else fp0
  Vault.mk (v1.files ++ [VFile.mk filePath ("md") (some (toString a.id))]) v1.folders

/-- The state threaded through a sync run: the vault, the notices shown
to the user, and the `totalCreated` counter. -/
structure SyncState where
  vault : Vault
  notices : List String
  created : Nat
deriving DecidableEq, Repr

/-- The notice shown when syncing one course fails. -/
def errNotice (subject msg : String) : String :=
  (("Canvas Sync: Error syncing " ++ subject) ++ (": ")) ++ msg

/-- The per-course body of `syncAssignments`'s loop (src/unnamed/part_003,
lines 129-155): fetch the course's assignments (`fetchResult` is the
outcome of `fetchAssignments` for a course id); on failure, show a notice
and continue; on success, create a note for each published assignment
whose id is not already present in the subject's Todo/Working/Done
folders, the existing-id set being computed once before the loop.
The body of the `for (const assignment of published)` loop — skip an
assignment whose id is already known, otherwise create its note and
count it — is `syncStep` below. -/
def syncStep (basePath : String) (mapping : CourseMappingConfig) (existingIds : List String)
    (st2 : SyncState) (a : CanvasAssignment) : SyncState :=
  if existingIds.contains (toString a.id) then st2
  else SyncState.mk (createAssignmentNote st2.vault a mapping basePath)
    st2.notices (st2.created + 1)

def processCourse (fetchResult : String → Except String (List CanvasAssignment))
    (basePath : String) (st : SyncState) (cm : String × CourseMappingConfig) : SyncState :=
  match fetchResult cm.1 with
  | Except.error msg =>
    SyncState.mk st.vault (st.notices ++ [errNotice cm.2.subject msg]) st.created
  | Except.ok assignments =>
    let published := assignments.filter (fun a => a.published)
    let existingIds := findExistingCanvasIds st.vault ((basePath ++ ("/")) ++ cm.2.subject)
      [("Todo"), ("Working"), ("Done")]
    published.foldl (syncStep basePath cm.2 existingIds) st

/-- `syncAssignments` over its course loop: filter to the mappings with
a configured subject and process each in order, starting with no notices
and a zero created-counter. -/
def syncAssignments (fetchResult : String → Except String (List CanvasAssignment))
    (basePath : String) (mappings : List (String × CourseMappingConfig))
    (v : Vault) : SyncState :=
  (mappings.filter (fun cm => 0 < cm.2.subject.length)).foldl
    (processCourse fetchResult basePath) (SyncState.mk v [] 0)

/-- Membership-wise containment of vaults. -/
def Vault.Sub (v w : Vault) : Prop :=
  (∀ f ∈ v.files, f ∈ w.files) ∧ (∀ p ∈ v.folders, p ∈ w.folders)

theorem Vault.Sub.rfl (v : Vault) : Vault.Sub v v :=
  ⟨fun _ h => h, fun _ h => h⟩

theorem Vault.Sub.trans {u v w : Vault} (h1 : Vault.Sub u v) (h2 : Vault.Sub v w) :
    Vault.Sub u w :=
  ⟨fun f hf => h2.1 f (h1.1 f hf), fun p hp => h2.2 p (h1.2 p hp)⟩

theorem contains_iff_mem (l : List String) (x : String) : l.contains x = true ↔ x ∈ l := by
  show l.elem x = true ↔ x ∈ l
  rw [List.elem_eq_mem, decide_eq_true_eq]

theorem pathExists_mono {v w : Vault} (h : Vault.Sub v w) (p : String)
    (hp : pathExists v p = true) : pathExists w p = true := by
  simp only [pathExists, Bool.or_eq_true, List.any_eq_true, beq_iff_eq] at hp ⊢
  rcases hp with hp | ⟨f, hf, hfp⟩
  · exact Or.inl ((contains_iff_mem _ _).mpr (h.2 p ((contains_iff_mem _ _).mp hp)))
  · exact Or.inr ⟨f, h.1 f hf, hfp⟩

theorem str_ext {a b : String} (h : a.data = b.data) : a = b := by
  cases a; cases b; simp_all

theorem strAppend_assoc (a b c : String) : (a ++ b) ++ c = a ++ (b ++ c) :=
  str_ext (by simp [String.data_append, List.append_assoc])

theorem sStartsWith_append (p r : String) : sStartsWith p (p ++ r) = true := by
  unfold sStartsWith
  rw [String.data_append]
  exact (List.isPrefixOf_iff_prefix).mpr (List.prefix_append _ _)

theorem mem_findExisting (v : Vault) (b x : String) (subs : List String) :
    x ∈ findExistingCanvasIds v b subs ↔
      ∃ sub ∈ subs, pathExists v ((b ++ ("/")) ++ sub) = true ∧
        ∃ f ∈ v.files, sStartsWith (((b ++ ("/")) ++ sub) ++ ("/")) f.path = true
          ∧ f.ext = ("md") ∧ f.canvasId = some x := by
  induction subs with
  | nil => simp [findExistingCanvasIds]
  | cons sub subs ih =>
    simp only [findExistingCanvasIds]
    rw [List.mem_append, ih]
    by_cases h : pathExists v ((b ++ ("/")) ++ sub) = true
    · rw [if_pos h]
      simp only [List.mem_filterMap, List.mem_filter, Bool.and_eq_true, beq_iff_eq,
        List.mem_cons]
      constructor
      · rintro (⟨f, ⟨hf, hpre, hext⟩, hid⟩ | ⟨s2, hs2, rest⟩)
        · exact ⟨sub, Or.inl rfl, h, f, hf, hpre, hext, hid⟩
        · exact ⟨s2, Or.inr hs2, rest⟩
      · rintro ⟨s2, hs2 | hs2, hp, f, hf, hpre, hext, hid⟩
        · subst hs2
          exact Or.inl ⟨f, ⟨hf, hpre, hext⟩, hid⟩
        · exact Or.inr ⟨s2, hs2, hp, f, hf, hpre, hext, hid⟩
    · rw [if_neg h]
      simp only [List.not_mem_nil, false_or, List.mem_cons]
      constructor
      · rintro ⟨s2, hs2, rest⟩
        exact ⟨s2, Or.inr hs2, rest⟩
      · rintro ⟨s2, hs2 | hs2, hp, rest⟩
        · exact absurd (hs2 ▸ hp) h
        · exact ⟨s2, hs2, hp, rest⟩

theorem findExisting_mono {v w : Vault} (h : Vault.Sub v w) (b x : String)
    (subs : List String) (hx : x ∈ findExistingCanvasIds v b subs) :
    x ∈ findExistingCanvasIds w b subs := by
  rw [mem_findExisting] at hx ⊢
  obtain ⟨sub, hs, hp, f, hf, h1, h2, h3⟩ := hx
  exact ⟨sub, hs, pathExists_mono h _ hp, f, h.1 f hf, h1, h2, h3⟩

theorem createNote_sub (v : Vault) (a : CanvasAssignment) (m : CourseMappingConfig)
    (b : String) : Vault.Sub v (createAssignmentNote v a m b) := by
  constructor <;> intro z hz <;> simp only [createAssignmentNote] <;> split_ifs <;>
    simp [hz]

theorem createNote_newfile (v : Vault) (a : CanvasAssignment) (m : CourseMappingConfig)
    (b : String) :
    ∃ rest : String,
      VFile.mk (((((b ++ ("/")) ++ m.subject) ++ ("/Todo")) ++ ("/")) ++ rest) ("md")
        (some (toString a.id)) ∈ (createAssignmentNote v a m b).files := by
  simp only [createAssignmentNote]
  split_ifs <;>
    [refine ⟨sanitizeFilename a.name ++ (((" (") ++ toString a.id ++ (")")) ++ (".md")), ?_⟩;
     refine ⟨sanitizeFilename a.name ++ (".md"), ?_⟩;
     refine ⟨sanitizeFilename a.name ++ (((" (") ++ toString a.id ++ (")")) ++ (".md")), ?_⟩;
     refine ⟨sanitizeFilename a.name ++ (".md"), ?_⟩] <;>
  · simp [strAppend_assoc]

theorem createNote_covers (v : Vault) (a : CanvasAssignment) (m : CourseMappingConfig)
    (b : String) :
    (toString a.id) ∈ findExistingCanvasIds (createAssignmentNote v a m b)
      ((b ++ ("/")) ++ m.subject) [("Todo"), ("Working"), ("Done")] := by
  have hfp : (((b ++ ("/")) ++ m.subject) ++ ("/")) ++ ("Todo")
      = ((b ++ ("/")) ++ m.subject) ++ ("/Todo") := by
    rw [strAppend_assoc]
    exact congrArg _ (by decide)
  rw [mem_findExisting]
  refine ⟨("Todo"), by simp, ?_, ?_⟩
  · rw [hfp]
    by_cases h : pathExists v (((b ++ ("/")) ++ m.subject) ++ ("/Todo")) = true
    · exact pathExists_mono (createNote_sub v a m b) _ h
    · simp only [createAssignmentNote, h, if_neg, if_false]
      simp [pathExists]
  · obtain ⟨rest, hmem⟩ := createNote_newfile v a m b
    refine ⟨_, hmem, ?_, rfl, rfl⟩
    show sStartsWith ((((b ++ ("/")) ++ m.subject) ++ ("/")) ++ ("Todo") ++ ("/")) _ = true
    rw [hfp]
    exact sStartsWith_append _ _

theorem syncStep_vault_sub (b : String) (m : CourseMappingConfig) (ids : List String)
    (st : SyncState) (a : CanvasAssignment) :
    Vault.Sub st.vault ((syncStep b m ids st a).vault) := by
  unfold syncStep
  split_ifs
  · exact Vault.Sub.rfl _
  · exact createNote_sub _ _ _ _

theorem foldStep_vault_sub (b : String) (m : CourseMappingConfig) (ids : List String)
    (l : List CanvasAssignment) :
    ∀ st : SyncState, Vault.Sub st.vault ((l.foldl (syncStep b m ids) st).vault) := by
  induction l with
  | nil => intro st; exact Vault.Sub.rfl _
  | cons a0 l2 ih =>
    intro st
    exact Vault.Sub.trans (syncStep_vault_sub b m ids st a0) (ih _)

theorem foldStep_notices (b : String) (m : CourseMappingConfig) (ids : List String)
    (l : List CanvasAssignment) :
    ∀ st : SyncState, (l.foldl (syncStep b m ids) st).notices = st.notices := by
  induction l with
  | nil => intro st; rfl
  | cons a0 l2 ih =>
    intro st
    rw [List.foldl_cons, ih]
    unfold syncStep
    split_ifs <;> rfl

theorem processCourse_vault_sub (f : String → Except String (List CanvasAssignment))
    (b : String) (st : SyncState) (cm : String × CourseMappingConfig) :
    Vault.Sub st.vault ((processCourse f b st cm).vault) := by
  unfold processCourse
  cases f cm.1 with
  | error m => exact Vault.Sub.rfl _
  | ok asgs => exact foldStep_vault_sub _ _ _ _ _

theorem processCourse_notices (f : String → Except String (List CanvasAssignment))
    (b : String) (st : SyncState) (cm : String × CourseMappingConfig) :
    (processCourse f b st cm).notices
      = st.notices ++ (match f cm.1 with
          | Except.error m => [errNotice cm.2.subject m]
          | Except.ok _ => []) := by
  unfold processCourse
  cases f cm.1 with
  | error m => rfl
  | ok asgs => rw [foldStep_notices]; simp

theorem foldStep_covers (b : String) (m : CourseMappingConfig) (ids : List String)
    (a : CanvasAssignment) (l : List CanvasAssignment) :
    ∀ st : SyncState, a ∈ l →
      (∀ x ∈ ids, x ∈ findExistingCanvasIds st.vault ((b ++ ("/")) ++ m.subject)
        [("Todo"), ("Working"), ("Done")]) →
      (toString a.id) ∈ findExistingCanvasIds ((l.foldl (syncStep b m ids) st).vault)
        ((b ++ ("/")) ++ m.subject) [("Todo"), ("Working"), ("Done")] := by
  induction l with
  | nil => intro st ha; exact absurd ha (List.not_mem_nil a)
  | cons a0 l2 ih =>
    intro st ha hids
    have hstep : ∀ x ∈ ids,
        x ∈ findExistingCanvasIds ((syncStep b m ids st a0).vault)
          ((b ++ ("/")) ++ m.subject) [("Todo"), ("Working"), ("Done")] :=
      fun x hx => findExisting_mono (syncStep_vault_sub b m ids st a0) _ _ _ (hids x hx)
    rcases List.mem_cons.mp ha with rfl | ha2
    · by_cases hc : ids.contains (toString a.id) = true
      · have hin : (toString a.id) ∈ findExistingCanvasIds ((syncStep b m ids st a).vault)
            ((b ++ ("/")) ++ m.subject) [("Todo"), ("Working"), ("Done")] :=
          hstep _ ((contains_iff_mem _ _).mp hc)
        exact findExisting_mono (foldStep_vault_sub b m ids l2 _) _ _ _ hin
      · have hin : (toString a.id) ∈ findExistingCanvasIds ((syncStep b m ids st a).vault)
            ((b ++ ("/")) ++ m.subject) [("Todo"), ("Working"), ("Done")] := by
          unfold syncStep
          rw [if_neg hc]
          exact createNote_covers _ _ _ _
        exact findExisting_mono (foldStep_vault_sub b m ids l2 _) _ _ _ hin
    · exact ih _ ha2 hstep

theorem processCourse_covers (f : String → Except String (List CanvasAssignment))
    (b : String) (st : SyncState) (cm : String × CourseMappingConfig)
    (asgs : List CanvasAssignment) (hok : f cm.1 = Except.ok asgs)
    (a : CanvasAssignment) (ha : a ∈ asgs) (hpub : a.published = true) :
    (toString a.id) ∈ findExistingCanvasIds ((processCourse f b st cm).vault)
      ((b ++ ("/")) ++ cm.2.subject) [("Todo"), ("Working"), ("Done")] := by
  unfold processCourse
  rw [hok]
  exact foldStep_covers _ _ _ _ _ _
    (List.mem_filter.mpr ⟨ha, by simp [hpub]⟩) (fun x hx => hx)

theorem foldStep_noop (b : String) (m : CourseMappingConfig) (ids : List String)
    (l : List CanvasAssignment) :
    ∀ st : SyncState, (∀ a ∈ l, ids.contains (toString a.id) = true) →
      l.foldl (syncStep b m ids) st = st := by
  induction l with
  | nil => intro st _; rfl
  | cons a0 l2 ih =>
    intro st h
    rw [List.foldl_cons]
    rw [show syncStep b m ids st a0 = st from by
      unfold syncStep; rw [if_pos (h a0 (List.mem_cons_self a0 l2))]]
    exact ih st (fun a ha => h a (List.mem_cons_of_mem a0 ha))

theorem processCourse_noop (f : String → Except String (List CanvasAssignment))
    (b : String) (st : SyncState) (cm : String × CourseMappingConfig)
    (asgs : List CanvasAssignment) (hok : f cm.1 = Except.ok asgs)
    (hcov : ∀ a ∈ asgs, a.published = true →
      (toString a.id) ∈ findExistingCanvasIds st.vault ((b ++ ("/")) ++ cm.2.subject)
        [("Todo"), ("Working"), ("Done")]) :
    processCourse f b st cm = st := by
  unfold processCourse
  rw [hok]
  apply foldStep_noop
  intro a ha
  have hmem := List.mem_filter.mp ha
  exact (contains_iff_mem _ _).mpr (hcov a hmem.1 (by simpa using hmem.2))

/-- The error notices a course list produces under a fetch outcome. -/
def errNotices (f : String → Except String (List CanvasAssignment))
    (cs : List (String × CourseMappingConfig)) : List String :=
  cs.filterMap (fun cm => match f cm.1 with
    | Except.error m => some (errNotice cm.2.subject m)
    | Except.ok _ => Option.none)

theorem run_notices (f : String → Except String (List CanvasAssignment)) (b : String)
    (cs : List (String × CourseMappingConfig)) :
    ∀ st : SyncState,
      (cs.foldl (processCourse f b) st).notices = st.notices ++ errNotices f cs := by
  induction cs with
  | nil => intro st; simp [errNotices]
  | cons cm cs2 ih =>
    intro st
    rw [List.foldl_cons, ih, processCourse_notices]
    cases hf : f cm.1 <;> simp [errNotices, hf, List.append_assoc]

theorem run_vault_sub (f : String → Except String (List CanvasAssignment)) (b : String)
    (cs : List (String × CourseMappingConfig)) :
    ∀ st : SyncState, Vault.Sub st.vault ((cs.foldl (processCourse f b) st).vault) := by
  induction cs with
  | nil => intro st; exact Vault.Sub.rfl _
  | cons cm cs2 ih =>
    intro st
    exact Vault.Sub.trans (processCourse_vault_sub f b st cm) (ih _)

theorem run_covers (f : String → Except String (List CanvasAssignment)) (b : String)
    (cs : List (String × CourseMappingConfig)) :
    ∀ st : SyncState, ∀ cm ∈ cs, ∀ asgs, f cm.1 = Except.ok asgs →
      ∀ a ∈ asgs, a.published = true →
      (toString a.id) ∈ findExistingCanvasIds ((cs.foldl (processCourse f b) st).vault)
        ((b ++ ("/")) ++ cm.2.subject) [("Todo"), ("Working"), ("Done")] := by
  induction cs with
  | nil => intro st cm hcm; exact absurd hcm (List.not_mem_nil cm)
  | cons cm0 cs2 ih =>
    intro st cm hcm asgs hok a ha hpub
    rcases List.mem_cons.mp hcm with rfl | hcm2
    · have h1 := processCourse_covers f b st cm asgs hok a ha hpub
      exact findExisting_mono (run_vault_sub f b cs2 _) _ _ _ h1
    · exact ih _ cm hcm2 asgs hok a ha hpub

theorem run2_noop (f : String → Except String (List CanvasAssignment)) (b : String)
    (cs : List (String × CourseMappingConfig)) :
    ∀ t : SyncState,
      (∀ cm ∈ cs, ∀ asgs, f cm.1 = Except.ok asgs →
        ∀ a ∈ asgs, a.published = true →
        (toString a.id) ∈ findExistingCanvasIds t.vault ((b ++ ("/")) ++ cm.2.subject)
          [("Todo"), ("Working"), ("Done")]) →
      cs.foldl (processCourse f b) t
        = SyncState.mk t.vault (t.notices ++ errNotices f cs) t.created := by
  induction cs with
  | nil => intro t _; simp [errNotices]
  | cons cm cs2 ih =>
    intro t hcov
    rw [List.foldl_cons]
    cases hf : f cm.1 with
    | error m =>
      have hpc : processCourse f b t cm
          = SyncState.mk t.vault (t.notices ++ [errNotice cm.2.subject m]) t.created := by
        unfold processCourse; rw [hf]
      rw [hpc,
        ih (SyncState.mk t.vault (t.notices ++ [errNotice cm.2.subject m]) t.created)
          (fun cm2 hcm2 => hcov cm2 (List.mem_cons_of_mem cm hcm2))]
      simp [errNotices, hf, List.append_assoc]
    | ok asgs =>
      rw [processCourse_noop f b t cm asgs hf
        (hcov cm (List.mem_cons_self cm cs2) asgs hf)]
      rw [ih t (fun cm2 hcm2 => hcov cm2 (List.mem_cons_of_mem cm hcm2))]
      simp [errNotices, hf]

theorem foldStep_files (b : String) (m : CourseMappingConfig) (ids : List String)
    (l : List CanvasAssignment) :
    ∀ st : SyncState, ∀ fl ∈ ((l.foldl (syncStep b m ids) st).vault.files),
      fl ∈ st.vault.files ∨
      ∃ a ∈ l, ids.contains (toString a.id) = false
        ∧ fl.canvasId = some (toString a.id) := by
  induction l with
  | nil => intro st fl hfl; exact Or.inl hfl
  | cons a0 l2 ih =>
    intro st fl hfl
    rw [List.foldl_cons] at hfl
    rcases ih _ fl hfl with hin | ⟨a, ha, hc, hid⟩
    · by_cases hc0 : ids.contains (toString a0.id) = true
      · rw [show syncStep b m ids st a0 = st from by unfold syncStep; rw [if_pos hc0]] at hin
        exact Or.inl hin
      · unfold syncStep at hin
        rw [if_neg hc0] at hin
        simp only [createAssignmentNote] at hin
        have : fl ∈ (if pathExists st.vault
              ((((b ++ ("/")) ++ m.subject) ++ ("/Todo"))) then st.vault
            else Vault.mk st.vault.files
              (((((b ++ ("/")) ++ m.subject) ++ ("/Todo"))) :: st.vault.folders)).files
            ++ [VFile.mk _ ("md") (some (toString a0.id))] := hin
        rw [List.mem_append] at this
        rcases this with h1 | h1
        · left
          split_ifs at h1 <;> exact h1
        · right
          refine ⟨a0, List.mem_cons_self a0 l2, by simpa using hc0, ?_⟩
          rcases List.mem_singleton.mp h1 with rfl
          rfl
    · exact Or.inr ⟨a, List.mem_cons_of_mem a0 ha, hc, hid⟩

/-- C9: a transport failure while fetching one course's assignments is
isolated to that course — the failing course contributes exactly one
error notice, leaves the vault untouched and creates nothing, and the
sync continues with every other course: the run over `cs1 ++ c :: cs2`
equals the run over `cs1`, followed by the notice for `c`, followed by
the run over `cs2`. -/
theorem syncAssignments_error_isolated
    (f : String → Except String (List CanvasAssignment)) (b : String)
    (cs1 cs2 : List (String × CourseMappingConfig)) (c : String × CourseMappingConfig)
    (v : Vault) (msg : String)
    (hall : ∀ cm ∈ cs1 ++ c :: cs2, 0 < cm.2.subject.length)
    (herr : f c.1 = Except.error msg) :
    (∀ st : SyncState, processCourse f b st c
        = SyncState.mk st.vault (st.notices ++ [errNotice c.2.subject msg]) st.created)
  ∧ syncAssignments f b (cs1 ++ c :: cs2) v
      = cs2.foldl (processCourse f b)
          (SyncState.mk ((cs1.foldl (processCourse f b) (SyncState.mk v [] 0)).vault)
            ((cs1.foldl (processCourse f b) (SyncState.mk v [] 0)).notices
              ++ [errNotice c.2.subject msg])
            ((cs1.foldl (processCourse f b) (SyncState.mk v [] 0)).created)) := by
  have hpc : ∀ st : SyncState, processCourse f b st c
      = SyncState.mk st.vault (st.notices ++ [errNotice c.2.subject msg]) st.created := by
    intro st
    unfold processCourse
    rw [herr]
  refine ⟨hpc, ?_⟩
  unfold syncAssignments
  rw [List.filter_eq_self.mpr (fun cm hcm => by simpa using hall cm hcm)]
  rw [List.foldl_append, List.foldl_cons, hpc]

/-- Demo course mapping. -/
def demoMapping (subj : String) : CourseMappingConfig :=
  CourseMappingConfig.mk ("Course") subj ("Tag")

/-- Demo fetch outcomes: course 1 succeeds, course 2 fails with an HTTP
error, any other course succeeds. -/
def demoFetch : String → Except String (List CanvasAssignment) := fun cid =>
  if cid = ("1") then Except.ok [demoAsg 10 ("hw10")]
  else if cid = ("2") then Except.error ("HTTP 500")
  else Except.ok [demoAsg 30 ("hw30")]

/-- C9 witness: the failing course 2 only appends its error notice,
leaving vault and counter untouched. -/
theorem syncAssignments_error_isolated_witness :
    processCourse demoFetch ("base") (SyncState.mk (Vault.mk [] []) [] 0)
        ((("2"), demoMapping ("History")))
      = SyncState.mk (Vault.mk [] []) [errNotice ("History") ("HTTP 500")] 0 := by
  have h := syncAssignments_error_isolated demoFetch ("base")
    [((("1"), demoMapping ("Math")))] [((("3"), demoMapping ("Physics")))]
    ((("2"), demoMapping ("History"))) (Vault.mk [] []) ("HTTP 500")
    (by
      intro cm hcm
      rcases List.mem_append.mp hcm with h1 | h1
      · rcases List.mem_singleton.mp h1 with rfl
        decide
      · rcases List.mem_cons.mp h1 with rfl | h2
        · decide
        · rcases List.mem_singleton.mp h2 with rfl
          decide)
    rfl
  rw [h.1 (SyncState.mk (Vault.mk [] []) [] 0)]
  rfl

/-- C10: sync only materialises assignments that are published and not
already present — every file of the post-course vault is either an old
file or the note of a published fetched assignment whose id was not
among the subject's known canvas-ids — and a second sync over unchanged
remote data is a no-op: it returns the same vault, the same notices, and
a zero created-counter. -/
theorem syncAssignments_spec :
    (∀ (f : String → Except String (List CanvasAssignment)) (b : String)
        (st : SyncState) (cm : String × CourseMappingConfig)
        (asgs : List CanvasAssignment),
      f cm.1 = Except.ok asgs →
      ∀ fl ∈ (processCourse f b st cm).vault.files,
        fl ∈ st.vault.files ∨
        ∃ a ∈ asgs, a.published = true
          ∧ ¬ (toString a.id) ∈ findExistingCanvasIds st.vault
              ((b ++ ("/")) ++ cm.2.subject) [("Todo"), ("Working"), ("Done")]
          ∧ fl.canvasId = some (toString a.id))
  ∧ (∀ (f : String → Except String (List CanvasAssignment)) (b : String)
        (mappings : List (String × CourseMappingConfig)) (v : Vault),
      syncAssignments f b mappings ((syncAssignments f b mappings v).vault)
        = SyncState.mk ((syncAssignments f b mappings v).vault)
            ((syncAssignments f b mappings v).notices) 0) := by
  constructor
  · intro f b st cm asgs hok fl hfl
    unfold processCourse at hfl
    rw [hok] at hfl
    have hff := foldStep_files b cm.2
      (findExistingCanvasIds st.vault ((b ++ ("/")) ++ cm.2.subject)
        [("Todo"), ("Working"), ("Done")])
      (asgs.filter (fun a => a.published)) st fl hfl
    rcases hff with h | ⟨a, ha, hc, hid⟩
    · exact Or.inl h
    · have hm := List.mem_filter.mp ha
      refine Or.inr ⟨a, hm.1, by simpa using hm.2, ?_, hid⟩
      intro hmem
      have := (contains_iff_mem _ _).mpr hmem
      rw [hc] at this
      exact Bool.false_ne_true this
  · intro f b mappings v
    unfold syncAssignments
    rw [run2_noop f b (mappings.filter (fun cm => 0 < cm.2.subject.length))
      (SyncState.mk ((mappings.filter (fun cm => 0 < cm.2.subject.length)).foldl
        (processCourse f b) (SyncState.mk v [] 0)).vault [] 0)
      (fun cm hcm asgs hok a ha hpub =>
        run_covers f b (mappings.filter (fun cm => 0 < cm.2.subject.length))
          (SyncState.mk v [] 0) cm hcm asgs hok a ha hpub)]
    rw [run_notices]

/-- C10 witness: a second sync over the same fetch outcomes returns the
first run's vault and notices unchanged with zero creations. -/
theorem syncAssignments_spec_witness :
    syncAssignments demoFetch ("base")
      [((("1"), demoMapping ("Math"))), ((("2"), demoMapping ("History")))]
      ((syncAssignments demoFetch ("base")
        [((("1"), demoMapping ("Math"))), ((("2"), demoMapping ("History")))]
        (Vault.mk [] [])).vault)
      = SyncState.mk
          ((syncAssignments demoFetch ("base")
            [((("1"), demoMapping ("Math"))), ((("2"), demoMapping ("History")))]
            (Vault.mk [] [])).vault)
          ((syncAssignments demoFetch ("base")
            [((("1"), demoMapping ("Math"))), ((("2"), demoMapping ("History")))]
            (Vault.mk [] [])).notices)
          0 :=
  syncAssignments_spec.2 demoFetch ("base")
    [((("1"), demoMapping ("Math"))), ((("2"), demoMapping ("History")))] (Vault.mk [] [])

/-! ## Completion transition (`completeItem`, src/unnamed/part_002 lines
187-215 and part_001 lines 113-141) -/

/-- Does the trimmed line match `/^-?\s*Status\/Todo$/` — the tag lines
removed from the front-matter tag block? -/
def isStatusTodoTagLine (l : String) : Bool :=
  let t := trimChars l.data
  let t1 := match t with
    | '-' :: r => r
    | _ => t
  (t1.dropWhile Char.isWhitespace) == ("Status/Todo").data

/-- Does the line start with a word character (`\n\w` lookahead)? -/
def startsWithWordChar (l : String) : Bool :=
  match l.data with
  | [] => false
  | c :: _ => (c.isAlpha || c.isDigit) || c = '_'

/-- A line at which the lazy tag-block match stops: the lookahead
`(?=\n\w|\n---)` succeeds before a line starting with a word character
or with `---`. -/
def isTerminatorLine (l : String) : Bool :=
  startsWithWordChar l || sStartsWith ("---") l

/-- Index of the first terminator line. -/
def findTermIdx : List String → Option Nat
  | [] => Option.none
  | l :: rest =>
    if isTerminatorLine l then some 0 else (findTermIdx rest).map (fun n => n + 1)

/-- Does the line match `^tags:\s*$` — the `tags:` front-matter header
captured by the first replacement regex? -/
def isTagsHeader (l : String) : Bool :=
  match l.data with
  | 't' :: 'a' :: 'g' :: 's' :: ':' :: rest => rest.all Char.isWhitespace
  | _ => false

/-- The first content rewrite of `completeItem`: the replacement
`content.replace(/^(tags:\s*\n)([\s\S]*?)(?=\n\w|\n---)/m, ...)` that
filters `Status/Todo` entries out of the tag block, on content
represented as its list of lines.  The block starts right after the
first `tags:` header line and runs up to (excluding) the first
terminator line after at least one block line; with no match the
content is unchanged. -/
def removeStatusTodoTag : List String → List String
  | [] => []
  | l :: rest =>
    if isTagsHeader l then
      match rest with
      | [] => l :: []
      | b0 :: rest1 =>
        match findTermIdx rest1 with
        | Option.none => l :: b0 :: rest1
        | some k =>
          l :: ((b0 :: rest1.take k).filter (fun s => !isStatusTodoTagLine s))
            ++ rest1.drop k
    else l :: removeStatusTodoTag rest

/-- Does the line match `/^status:\s*Todo$/`? -/
def isStatusTodoLine (l : String) : Bool :=
  match l.data with
  | 's' :: 't' :: 'a' :: 't' :: 'u' :: 's' :: ':' :: rest =>
    (rest.dropWhile Char.isWhitespace) == ("Todo").data
  | _ => false

/-- The second content rewrite:
`content.replace(/^status:\s*Todo$/m, "status: Done")` — replace the
first matching line. -/
def replaceStatusTodo : List String → List String
  | [] => []
  | l :: rest =>
    if isStatusTodoLine l then ("status: Done") :: rest
    else l :: replaceStatusTodo rest

/-- Both content rewrites of `completeItem`, in source order. -/
def completeContent (lines : List String) : List String :=
  replaceStatusTodo (removeStatusTodoTag lines)

/-- `s.replace(pat, rep)` with a string pattern: replace the first
occurrence only, leaving the string unchanged when there is none. -/
def replaceOnceL (pat rep : List Char) : List Char → List Char
  | [] => []
  | c :: rest =>
    if pat.isPrefixOf (c :: rest) then rep ++ (c :: rest).drop pat.length
    else c :: replaceOnceL pat rep rest

/-- `p.replace("/Todo/", "/Done/")` and friends. -/
def replaceFirst (s pat rep : String) : String :=
  String.mk (replaceOnceL pat.data rep.data s.data)

/-- `newPath.substring(0, newPath.lastIndexOf("/"))`. -/
def parentDir (p : String) : String :=
  match p.data.reverse.dropWhile (fun c => c ≠ '/') with
  | '/' :: rest => String.mk rest.reverse
  | _ => ("")

/-- A note file for the completion transition: its path and its content
as a list of lines (the rewrites are all line-anchored). -/
structure NoteFile where
  path : String
  content : List String
deriving DecidableEq, Repr

/-- The note store `completeItem` acts on. -/
structure NoteStore where
  files : List NoteFile
  folders : List String
deriving DecidableEq, Repr

/-- `vault.read` by path. -/
def readNote (st : NoteStore) (p : String) : Option (List String) :=
  (st.files.find? (fun f => f.path == p)).map NoteFile.content

/-- `vault.modify`: rewrite the content of the file(s) at `p`. -/
def writeNote (st : NoteStore) (p : String) (c : List String) : NoteStore :=
  NoteStore.mk
    (st.files.map (fun f => if f.path == p then NoteFile.mk f.path c else f))
    st.folders

/-- `completeItem` (src/unnamed/part_002, lines 187-215): read the note,
apply both front-matter rewrites, write it back, compute the destination
path by replacing `/Todo/` with `/Done/`, create the destination folder
(`try { createFolder } catch {}` — a folder that already exists is
silently tolerated), and rename the file to the destination. -/
def completeItem (st : NoteStore) (p : String) : Option NoteStore :=
  match readNote st p with
  | Option.none => Option.none
  | some content =>
    let content2 := completeContent content
    let st1 := writeNote st p content2
    let newPath := replaceFirst p ("/Todo/") ("/Done/")
    let doneFolder := parentDir newPath
    let st2 := if st1.folders.contains doneFolder then st1
               else NoteStore.mk st1.files (doneFolder :: st1.folders)
    some (NoteStore.mk
      (st2.files.map (fun f => if f.path == p then NoteFile.mk newPath f.content else f))
      st2.folders)

/-- Unfolding equation for `replaceOnceL` on a cons cell. -/
theorem replaceOnceL_cons (pat rep : List Char) (c : Char) (rest : List Char) :
    replaceOnceL pat rep (c :: rest) =
      if pat.isPrefixOf (c :: rest) then rep ++ (c :: rest).drop pat.length
      else c :: replaceOnceL pat rep rest := rfl

/-- First-occurrence replacement on a string shaped `A ++ pat ++ B`: when
the pattern has no occurrence starting inside `A` (no infix of
`A ++ pat.dropLast`), exactly the marked occurrence is replaced. -/
theorem replaceOnceL_append (pat rep A B : List Char) (hp : pat ≠ [])
    (hno : ¬ pat <:+: (A ++ pat.dropLast)) :
    replaceOnceL pat rep (A ++ (pat ++ B)) = A ++ (rep ++ B) := by
  induction A with
  | nil =>
    simp only [List.nil_append]
    cases pat with
    | nil => exact absurd rfl hp
    | cons c cs =>
      rw [List.cons_append, replaceOnceL_cons,
        if_pos (show (c :: cs).isPrefixOf (c :: (cs ++ B)) = true from by
          rw [← List.cons_append]
          exact List.isPrefixOf_iff_prefix.mpr (List.prefix_append _ _)),
        ← List.cons_append, List.drop_left]
  | cons c A' ih =>
    have hnp : pat.isPrefixOf (c :: (A' ++ (pat ++ B))) = false := by
      by_contra hcon
      have h : pat <+: c :: (A' ++ (pat ++ B)) := by simpa using hcon
      have hlen : pat.length ≤ ((c :: A') ++ pat.dropLast).length := by
        rw [List.length_append, List.length_dropLast]
        cases pat with
        | nil => exact absurd rfl hp
        | cons p ps => simp only [List.length_cons]; omega
      have hpref2 : ((c :: A') ++ pat.dropLast) <+: ((c :: A') ++ (pat ++ B)) :=
        (List.prefix_append_right_inj _).mpr
          ((List.dropLast_prefix pat).trans (List.prefix_append _ _))
      have pref3 : pat <+: (c :: A') ++ pat.dropLast :=
        List.prefix_of_prefix_length_le (by rw [List.cons_append]; exact h) hpref2 hlen
      exact hno pref3.isInfix
    have hno2 : ¬ pat <:+: (A' ++ pat.dropLast) := by
      intro h
      exact hno (by rw [List.cons_append]; exact List.infix_cons h)
    rw [List.cons_append, replaceOnceL_cons,
      if_neg (show ¬ pat.isPrefixOf (c :: (A' ++ (pat ++ B))) = true from by
        rw [hnp]; exact Bool.false_ne_true),
      ih hno2, List.cons_append]

/-- `findTermIdx` on a block with no terminator followed by one. -/
theorem findTermIdx_append (bt : List String) (term : String) (rest : List String)
    (hnt : ∀ l ∈ bt, isTerminatorLine l = false) (hterm : isTerminatorLine term = true) :
    findTermIdx (bt ++ term :: rest) = some bt.length := by
  induction bt with
  | nil => simp [findTermIdx, hterm]
  | cons b bt ih =>
    have hb := hnt b (List.mem_cons_self _ _)
    simp [findTermIdx, hb, ih (fun l hl => hnt l (List.mem_cons_of_mem _ hl))]

/-- The tag-block rewrite on content of the generated-note shape: front
matter opener, a `tags:` header, a nonempty tag block with no
terminator line, then a terminator line and the remaining lines. -/
theorem removeStatusTodoTag_shaped (tagBlock : List String) (term : String)
    (rest : List String) (hnb : tagBlock ≠ [])
    (hnt : ∀ l ∈ tagBlock, isTerminatorLine l = false)
    (hterm : isTerminatorLine term = true) :
    removeStatusTodoTag (("---") :: ("tags:") :: tagBlock ++ term :: rest)
      = ("---") :: ("tags:")
          :: (tagBlock.filter (fun s => !isStatusTodoTagLine s)) ++ term :: rest := by
  obtain ⟨b0, bt, rfl⟩ : ∃ b0 bt, tagBlock = b0 :: bt := by
    cases tagBlock with
    | nil => exact absurd rfl hnb
    | cons a l => exact ⟨a, l, rfl⟩
  have h1 : isTagsHeader ("---") = false := by decide
  have h2 : isTagsHeader ("tags:") = true := by decide
  have h3 : findTermIdx (bt ++ term :: rest) = some bt.length :=
    findTermIdx_append bt term rest (fun l hl => hnt l (List.mem_cons_of_mem _ hl)) hterm
  simp only [removeStatusTodoTag, h1, Bool.false_eq_true, if_false, List.append_eq,
    List.cons_append, h2, if_true, h3, List.take_left, List.drop_left]

/-- `replaceStatusTodo` passes over lines that are not status-Todo. -/
theorem replaceStatusTodo_append (l1 l2 : List String)
    (h : ∀ x ∈ l1, isStatusTodoLine x = false) :
    replaceStatusTodo (l1 ++ l2) = l1 ++ replaceStatusTodo l2 := by
  induction l1 with
  | nil => rfl
  | cons a l ih =>
    have ha := h a (List.mem_cons_self _ _)
    simp [replaceStatusTodo, ha, ih (fun x hx => h x (List.mem_cons_of_mem _ hx))]

/-- Both content rewrites on generated-note-shaped content with a single
status line: the `Status/Todo` tag lines are filtered out of the block
and the first status-Todo line becomes `status: Done`. -/
theorem completeContent_shaped (tagBlock : List String) (term : String)
    (r1 : List String) (td : String) (r2 : List String) (hnb : tagBlock ≠ [])
    (hnt : ∀ l ∈ tagBlock, isTerminatorLine l = false)
    (hterm : isTerminatorLine term = true)
    (hnsb : ∀ l ∈ tagBlock, isStatusTodoLine l = false)
    (htermns : isStatusTodoLine term = false)
    (hr1 : ∀ x ∈ r1, isStatusTodoLine x = false)
    (htd : isStatusTodoLine td = true) :
    completeContent (("---") :: ("tags:") :: tagBlock ++ term :: (r1 ++ td :: r2))
      = ("---") :: ("tags:")
          :: (tagBlock.filter (fun s => !isStatusTodoTagLine s))
          ++ term :: (r1 ++ ("status: Done") :: r2) := by
  rw [completeContent, removeStatusTodoTag_shaped tagBlock term _ hnb hnt hterm]
  have hshape : ("---") :: ("tags:")
      :: (tagBlock.filter (fun s => !isStatusTodoTagLine s)) ++ term :: (r1 ++ td :: r2)
      = (("---") :: ("tags:")
          :: ((tagBlock.filter (fun s => !isStatusTodoTagLine s)) ++ term :: r1))
        ++ td :: r2 := by simp
  have hA : ∀ x ∈ ("---") :: ("tags:")
      :: ((tagBlock.filter (fun s => !isStatusTodoTagLine s)) ++ term :: r1),
      isStatusTodoLine x = false := by
    intro x hx
    rcases List.mem_cons.mp hx with rfl | hx
    · decide
    rcases List.mem_cons.mp hx with rfl | hx
    · decide
    rcases List.mem_append.mp hx with hx | hx
    · exact hnsb x (List.mem_filter.mp hx).1
    rcases List.mem_cons.mp hx with rfl | hx
    · exact htermns
    exact hr1 x hx
  rw [hshape, replaceStatusTodo_append _ _ hA,
    show replaceStatusTodo (td :: r2) = ("status: Done") :: r2 from by
      simp [replaceStatusTodo, htd]]
  simp

/-- A `Todo` path and the corresponding `Done` path differ. -/
theorem todoPath_ne_donePath (base name : String) :
    base ++ (("/Todo/") ++ (name ++ (".md"))) ≠ base ++ (("/Done/") ++ (name ++ (".md"))) := by
  intro h
  have hd : base.data ++ (("/Todo/").data ++ (name ++ (".md")).data)
      = base.data ++ (("/Done/").data ++ (name ++ (".md")).data) := by
    have h2 := congrArg String.data h
    simpa [String.data_append] using h2
  have h2 := (List.append_inj hd rfl).2
  have h3 := (List.append_inj h2 (by decide)).1
  exact absurd h3 (by decide)

/-- On a path of the shape `base/Todo/name.md` whose base holds no other
`/Todo/` segment, the `completeItem` path rewrite yields
`base/Done/name.md`. -/
theorem replaceFirst_todoDone (base name : String)
    (hno : ¬ ("/Todo/").data <:+: ((base ++ ("/Todo")).data)) :
    replaceFirst (base ++ (("/Todo/") ++ (name ++ (".md")))) ("/Todo/") ("/Done/")
      = base ++ (("/Done/") ++ (name ++ (".md"))) := by
  have hno2 : ¬ ("/Todo/").data <:+: (base.data ++ ("/Todo/").data.dropLast) := by
    rw [show ("/Todo/").data.dropLast = ("/Todo").data from by decide, ← String.data_append]
    exact hno
  apply str_ext
  show replaceOnceL (("/Todo/").data) (("/Done/").data)
      ((base ++ (("/Todo/") ++ (name ++ (".md")))).data)
    = (base ++ (("/Done/") ++ (name ++ (".md")))).data
  simp only [String.data_append]
  rw [replaceOnceL_append _ _ _ _ (by decide) hno2]

/-- Explicit description of a successful `completeItem`: the note at `p`
gets the rewritten content and the `Done` path, the destination folder
is added when absent, and nothing else changes. -/
theorem completeItem_eq (st : NoteStore) (p : String) (content : List String)
    (hread : readNote st p = some content) :
    completeItem st p = some (NoteStore.mk
      (st.files.map (fun f =>
        if f.path == p
        then NoteFile.mk (replaceFirst p ("/Todo/") ("/Done/")) (completeContent content)
        else f))
      (if st.folders.contains (parentDir (replaceFirst p ("/Todo/") ("/Done/")))
       then st.folders
       else parentDir (replaceFirst p ("/Todo/") ("/Done/")) :: st.folders)) := by
  have hcongr : ∀ f : NoteFile,
      (if (if f.path == p then NoteFile.mk f.path (completeContent content) else f).path == p
       then NoteFile.mk (replaceFirst p ("/Todo/") ("/Done/"))
         (if f.path == p then NoteFile.mk f.path (completeContent content) else f).content
       else (if f.path == p then NoteFile.mk f.path (completeContent content) else f))
      = (if f.path == p
         then NoteFile.mk (replaceFirst p ("/Todo/") ("/Done/")) (completeContent content)
         else f) := by
    intro f
    by_cases hf : (f.path == p) = true
    · simp [hf]
    · simp [hf]
  by_cases hc : st.folders.contains (parentDir (replaceFirst p ("/Todo/") ("/Done/"))) = true
  · simp only [completeItem, hread, writeNote, hc, if_true, List.map_map]
    exact congrArg some (congrArg₂ NoteStore.mk
      (List.map_congr_left (fun f _ => hcongr f)) rfl)
  · simp only [completeItem, hread, writeNote, hc, Bool.false_eq_true, if_false,
      List.map_map]
    exact congrArg some (congrArg₂ NoteStore.mk
      (List.map_congr_left (fun f _ => hcongr f)) rfl)

/-- After the rename no file is left at the old path. -/
theorem find_renamed_none (files : List NoteFile) (p np : String) (c2 : List String)
    (hne : (np == p) = false) :
    (files.map (fun f => if f.path == p then NoteFile.mk np c2 else f)).find?
      (fun f => f.path == p) = Option.none := by
  rw [List.find?_eq_none]
  intro x hx
  rcases List.mem_map.mp hx with ⟨f, hf, rfl⟩
  by_cases hfp : (f.path == p) = true
  · simp [hfp, hne]
  · simp [hfp]

/-- After the rename the destination path holds the rewritten file,
provided the destination path was free and the source existed. -/
theorem find_renamed_some (files : List NoteFile) (p np : String) (c2 : List String)
    (hne : ∀ f ∈ files, f.path ≠ np)
    (hex : (files.find? (fun f => f.path == p)).isSome = true) :
    (files.map (fun f => if f.path == p then NoteFile.mk np c2 else f)).find?
      (fun f => f.path == np) = some (NoteFile.mk np c2) := by
  induction files with
  | nil => simp [List.find?] at hex
  | cons f fs ih =>
    rw [List.map_cons]
    by_cases hf : (f.path == p) = true
    · rw [if_pos hf]
      exact List.find?_cons_of_pos _ (by simp)
    · have hfne : ¬ ((fun g : NoteFile => g.path == np) f = true) := by
        simpa using hne f (List.mem_cons_self _ _)
      rw [if_neg hf]
      have step : List.find? (fun g : NoteFile => g.path == np)
          (f :: (fs.map (fun g => if g.path == p then NoteFile.mk np c2 else g)))
          = List.find? (fun g : NoteFile => g.path == np)
            (fs.map (fun g => if g.path == p then NoteFile.mk np c2 else g)) :=
        List.find?_cons_of_neg _ hfne
      rw [step]
      refine ih (fun g hg => hne g (List.mem_cons_of_mem _ hg)) ?_
      have step2 : List.find? (fun g : NoteFile => g.path == p) (f :: fs)
          = List.find? (fun g : NoteFile => g.path == p) fs :=
        List.find?_cons_of_neg _ (by simpa using hf)
      rw [step2] at hex
      exact hex

/-- C7: for an item backed by a file at `.../Subject/Todo/Name.md` (with
no earlier `/Todo/` segment) holding generated-note-shaped content, a
successful `completeItem` leaves the file at `.../Subject/Done/Name.md`
(destination computed by replacing the `/Todo/` segment with `/Done/`),
its front matter holds `status: Done` instead of `status: Todo` and no
`Status/Todo` tag line, the destination folder exists afterwards (with
nothing added when it already existed, the creation failure being
swallowed), and no file is left at the old path. -/
theorem completeItem_spec (st : NoteStore) (base name : String)
    (tagBlock r1 r2 : List String) (term td : String)
    (hno : ¬ ("/Todo/").data <:+: ((base ++ ("/Todo")).data))
    (hnb : tagBlock ≠ [])
    (hterm : isTerminatorLine term = true)
    (hnt : ∀ l ∈ tagBlock, isTerminatorLine l = false)
    (hnsb : ∀ l ∈ tagBlock, isStatusTodoLine l = false)
    (htermns : isStatusTodoLine term = false)
    (hr1 : ∀ x ∈ r1, isStatusTodoLine x = false)
    (htd : isStatusTodoLine td = true)
    (hr2 : ∀ x ∈ r2, isStatusTodoLine x = false)
    (hread : readNote st (base ++ (("/Todo/") ++ (name ++ (".md"))))
        = some (("---") :: ("tags:") :: tagBlock ++ term :: (r1 ++ td :: r2)))
    (hfresh : ∀ f ∈ st.files, f.path ≠ base ++ (("/Done/") ++ (name ++ (".md")))) :
    ∃ st' : NoteStore,
      completeItem st (base ++ (("/Todo/") ++ (name ++ (".md")))) = some st'
      ∧ readNote st' (base ++ (("/Done/") ++ (name ++ (".md"))))
          = some (("---") :: ("tags:")
              :: (tagBlock.filter (fun s => !isStatusTodoTagLine s))
              ++ term :: (r1 ++ ("status: Done") :: r2))
      ∧ (∀ l ∈ tagBlock.filter (fun s => !isStatusTodoTagLine s),
          isStatusTodoTagLine l = false)
      ∧ ("status: Todo") ∉ (("---") :: ("tags:")
              :: (tagBlock.filter (fun s => !isStatusTodoTagLine s))
              ++ term :: (r1 ++ ("status: Done") :: r2))
      ∧ readNote st' (base ++ (("/Todo/") ++ (name ++ (".md")))) = Option.none
      ∧ parentDir (base ++ (("/Done/") ++ (name ++ (".md")))) ∈ st'.folders
      ∧ (parentDir (base ++ (("/Done/") ++ (name ++ (".md")))) ∈ st.folders
          → st'.folders = st.folders) := by
  have hrepl := replaceFirst_todoDone base name hno
  have hcc := completeContent_shaped tagBlock term r1 td r2 hnb hnt hterm hnsb htermns hr1 htd
  have heq := completeItem_eq st _ _ hread
  rw [hrepl, hcc] at heq
  have hex : (st.files.find? (fun f =>
      f.path == base ++ (("/Todo/") ++ (name ++ (".md"))))).isSome = true := by
    rcases Option.map_eq_some'.mp (show (st.files.find? (fun f =>
        f.path == base ++ (("/Todo/") ++ (name ++ (".md"))))).map NoteFile.content
        = some (("---") :: ("tags:") :: tagBlock ++ term :: (r1 ++ td :: r2)) from hread)
      with ⟨a, ha, h2⟩
    rw [ha]
    rfl
  have hne : ((base ++ (("/Done/") ++ (name ++ (".md"))))
      == (base ++ (("/Todo/") ++ (name ++ (".md"))))) = false :=
    beq_eq_false_iff_ne.mpr (Ne.symm (todoPath_ne_donePath base name))
  refine ⟨_, heq, ?_, ?_, ?_, ?_, ?_, ?_⟩
  · show (List.find? _ _).map NoteFile.content = _
    rw [find_renamed_some st.files _ _ _ hfresh hex]
    rfl
  · intro l hl
    simpa using (List.mem_filter.mp hl).2
  · intro hmem
    rcases List.mem_cons.mp hmem with h | hmem
    · exact absurd h (by decide)
    rcases List.mem_cons.mp hmem with h | hmem
    · exact absurd h (by decide)
    rcases List.mem_append.mp hmem with h | hmem
    · exact absurd (hnsb _ (List.mem_filter.mp h).1) (by decide)
    rcases List.mem_cons.mp hmem with h | hmem
    · exact absurd htermns (by rw [← h]; decide)
    rcases List.mem_append.mp hmem with h | hmem
    · exact absurd (hr1 _ h) (by decide)
    rcases List.mem_cons.mp hmem with h | h
    · exact absurd h (by decide)
    · exact absurd (hr2 _ h) (by decide)
  · show (List.find? _ _).map NoteFile.content = _
    rw [find_renamed_none st.files _ _ _ hne]
    rfl
  · by_cases h : st.folders.contains
        (parentDir (base ++ (("/Done/") ++ (name ++ (".md"))))) = true
    · simp only [h, if_true]
      exact (contains_iff_mem _ _).mp h
    · simp only [h, Bool.false_eq_true, if_false]
      exact List.mem_cons_self _ _
  · intro hm
    show (if _ then st.folders else _) = st.folders
    rw [if_pos ((contains_iff_mem _ _).mpr hm)]

/-- Concrete run of the completion transition: one generated note under
`Sem/Math/Todo` is moved to `Sem/Math/Done` with its front matter
rewritten. -/
theorem completeItem_spec_witness :
    ∃ st' : NoteStore,
      completeItem
        (NoteStore.mk
          [NoteFile.mk ("Sem/Math/Todo/HW.md")
            (("---") :: ("tags:") :: [("\t- Math"), ("\t- Status/Todo")]
              ++ ("due: 2026-02-12")
                :: ([] ++ ("status: Todo") :: [("canvas-id: \x22 77\x22"), ("---")]))]
          [("Sem/Math/Todo")])
        (("Sem/Math") ++ (("/Todo/") ++ (("HW") ++ (".md")))) = some st'
      ∧ readNote st' (("Sem/Math") ++ (("/Done/") ++ (("HW") ++ (".md"))))
          = some (("---") :: ("tags:")
              :: ([("\t- Math"), ("\t- Status/Todo")].filter
                    (fun s => !isStatusTodoTagLine s))
              ++ ("due: 2026-02-12") :: ([] ++ ("status: Done")
                :: [("canvas-id: \x22 77\x22"), ("---")]))
      ∧ (∀ l ∈ [("\t- Math"), ("\t- Status/Todo")].filter
            (fun s => !isStatusTodoTagLine s),
          isStatusTodoTagLine l = false)
      ∧ ("status: Todo") ∉ (("---") :: ("tags:")
              :: ([("\t- Math"), ("\t- Status/Todo")].filter
                    (fun s => !isStatusTodoTagLine s))
              ++ ("due: 2026-02-12") :: ([] ++ ("status: Done")
                :: [("canvas-id: \x22 77\x22"), ("---")]))
      ∧ readNote st' (("Sem/Math") ++ (("/Todo/") ++ (("HW") ++ (".md")))) = Option.none
      ∧ parentDir (("Sem/Math") ++ (("/Done/") ++ (("HW") ++ (".md")))) ∈ st'.folders
      ∧ (parentDir (("Sem/Math") ++ (("/Done/") ++ (("HW") ++ (".md"))))
            ∈ [("Sem/Math/Todo")]
          → st'.folders = [("Sem/Math/Todo")]) :=
  completeItem_spec
    (NoteStore.mk
      [NoteFile.mk ("Sem/Math/Todo/HW.md")
        (("---") :: ("tags:") :: [("\t- Math"), ("\t- Status/Todo")]
          ++ ("due: 2026-02-12")
            :: ([] ++ ("status: Todo") :: [("canvas-id: \x22 77\x22"), ("---")]))]
      [("Sem/Math/Todo")])
    ("Sem/Math") ("HW")
    [("\t- Math"), ("\t- Status/Todo")] [] [("canvas-id: \x22 77\x22"), ("---")]
    ("due: 2026-02-12") ("status: Todo")
    (by decide) (by decide) (by decide) (by decide) (by decide) (by decide)
    (by decide) (by decide) (by decide) (by decide) (by decide)

end CanvasSync
